import Mathlib

/-!
Verification of the WordPress Archive Vue component (`src/unnamed/part_000`).

The component is a Vue mixin driving a filterable, paginated archive view.
This development shallowly embeds its data model and methods:

* JavaScript strings are modelled as `List Char` (`Str`).
* The `query` object (a JSON object mapping parameter names to scalars or
  arrays of scalars) is an association list `Query` in key-insertion order,
  matching the enumeration order JavaScript uses in `Object.keys`,
  `JSON.stringify` and object spreading.
* JavaScript numbers are modelled as `Int`; the numeric strings handled by
  the component (page numbers, term ids, WP pagination headers) are decimal
  integer literals, so `Number(...)`/`parseInt(...)` are modelled on that
  grammar (no floats, exponents, hex or whitespace forms appear here).
* Fallible constructs (`buildJsonQuery` returning `false`, a page entry
  being `undefined`, a fetch rejecting) are modelled with `Option`.
-/

namespace ArchiveVue

/-- JavaScript strings, modelled as lists of characters. -/
abbrev Str := List Char

/-- A scalar query value: a JavaScript number or string. -/
inductive Scalar where
  | num (n : Int)
  | str (s : Str)
deriving DecidableEq

/-- A query value: a scalar or an ordered array of scalars. -/
inductive QVal where
  | scalar (v : Scalar)
  | list (l : List Scalar)
deriving DecidableEq

/-- The `query` JSON object: an association list in key-insertion order. -/
abbrev Query := List (Str × QVal)

/-- The `"page"` key of the query object. -/
def pageKey : Str := ("page").toList

/-- First-match association lookup (JavaScript property access on the
objects used here, whose keys are unique). -/
def assoc? {α : Type} : List (Str × α) → Str → Option α
  | [], _ => none
  | (k, v) :: rest, key => if k = key then some v else assoc? rest key

/-- `query[k]`, as an `Option`. -/
def qget (q : Query) (k : Str) : Option QVal := assoc? q k

/-- `query.hasOwnProperty(k)`. -/
def hasOwnQ (q : Query) (k : Str) : Bool := (qget q k).isSome

/-- Property assignment `query[k] = v`: updates the first binding in place
(preserving key order) or appends a new binding at the end, as JavaScript
property insertion order works. -/
def qset : Query → Str → QVal → Query
  | [], k, v => [(k, v)]
  | (k', v') :: rest, k, v =>
      if k' = k then (k, v) :: rest else (k', v') :: qset rest k v

/-- `delete query[k]` (keys are unique in all states built here, so
removing every binding coincides with deleting the property). -/
def qdelete (q : Query) (k : Str) : Query := q.filter (fun kv => ¬(kv.1 = k))

/-- Copy of the query with the `page` attribute deleted, as built at the
start of `queue` (`Obj1`) and for each cached page (`Obj2`). -/
def stripPage (q : Query) : Query := qdelete q pageKey

/-- `this.query.page` read as a number (all reachable states keep `page` a
number; theorems that depend on it hypothesise that shape). -/
def getPage (q : Query) : Int :=
  match qget q pageKey with
  | some (QVal.scalar (Scalar.num n)) => n
  | _ => 0

/-- Membership test `list.includes(k)` for string lists. -/
def elemStr (xs : List Str) (k : Str) : Bool := xs.any (fun x => decide (x = k))

/-! ### Decimal integer printing and parsing

`${a}` interpolation of a number and the `isNaN(value) ? value : +value`
conversion in `buildJsonQuery`, modelled on the decimal integer grammar. -/

/-- Numeric value of a decimal digit character. -/
def digitVal (c : Char) : Nat := c.toNat - 48

/-- Fuel-based decimal printing of a positive natural (most significant
digit first); `fuel ≥ n` suffices. -/
def natReprAux : Nat → Nat → Str
  | 0, _ => []
  | fuel + 1, n =>
      if n = 0 then []
      else natReprAux fuel (n / 10) ++ [Nat.digitChar (n % 10)]

/-- Decimal representation of a natural number. -/
def natRepr (n : Nat) : Str := if n = 0 then [('0' : Char)] else natReprAux n n

/-- Decimal representation of an integer (template-literal interpolation
`${a}` of a JavaScript number). -/
def intRepr : Int → Str
  | Int.ofNat n => natRepr n
  | Int.negSucc n => ('-' : Char) :: natRepr (n + 1)

/-- Value of a nonempty all-digit string. -/
def digitsVal? (s : Str) : Option Nat :=
  if s = [] then none
  else if s.all Char.isDigit then
    some (s.foldl (fun acc c => 10 * acc + digitVal c) 0)
  else none

/-- JavaScript `Number(s)` on the decimal integer grammar: `none` models a
`NaN` result (so `isNaN(s)` is `(jsToNum? s).isNone`); the empty string
coerces to `0`. -/
def jsToNum? (s : Str) : Option Int :=
  match s with
  | [] => some 0
  | c :: rest =>
      if c = '-' then (digitsVal? rest).map (fun n => -(n : Int))
      else (digitsVal? s).map (fun n => (n : Int))

/-- The conversion applied to each decoded value in `buildJsonQuery`:
`isNaN(value) ? value : +value`. -/
def convVal (s : Str) : Scalar :=
  match jsToNum? s with
  | some n => Scalar.num n
  | none => Scalar.str s

/-- Template interpolation `${a}` of a scalar. -/
def scalarToStr : Scalar → Str
  | Scalar.num n => intRepr n
  | Scalar.str s => s

/-! ### `buildUrlQuery`: JSON object to URL query string -/

/-- `Array.prototype.join(sep)` over strings. -/
def joinSep (sep : Str) : List Str → Str
  | [] => []
  | [x] => x
  | x :: xs => x ++ sep ++ joinSep sep xs

/-- JavaScript truthiness of the elements produced by the `map` step of
`buildUrlQuery`: `false` (an omitted key) and the empty string are falsy. -/
def truthyB : Option Str → Bool
  | none => false
  | some s => decide (¬(s = []))

/-- One element of the `map` step of `buildUrlQuery`: `none` is the
literal `false` returned for omitted keys. -/
def encodePiece (omitKs : Option (List Str)) (rev : Option (List (Str × Str)))
    (kv : Str × QVal) : Option Str :=
  if (match omitKs with
      | some os => elemStr os kv.1
      | none => false) then none
  else
    let mp : Str :=
      match rev with
      | some rv =>
          match assoc? rv kv.1 with
          | some m => m
          | none => kv.1
      | none => kv.1
    match kv.2 with
    | QVal.list l =>
        some (joinSep [('&' : Char)]
          (l.map (fun a => mp ++ [('[' : Char), (']' : Char), ('=' : Char)] ++ scalarToStr a)))
    | QVal.scalar v => some (mp ++ [('=' : Char)] ++ scalarToStr v)

/-- `buildUrlQuery(query, omit, rev)`: converts a JSON object to a URL
query string. `omitKs = none` / `rev = none` model the default argument
`false` (note an empty array `[]` is truthy in JavaScript, so
`some []` and `none` genuinely differ, as in the source). -/
def buildUrlQuery (query : Query) (omitKs : Option (List Str))
    (rev : Option (List (Str × Str))) : Str :=
  let q := joinSep [('&' : Char)]
    (((query.map (encodePiece omitKs rev)).filter truthyB).map (fun x => x.getD []))
  if q = [] then [] else ('?' : Char) :: q

/-! ### `buildJsonQuery`: URL query string to JSON object -/

/-- Split a character list at every occurrence of `sep`. -/
def splitOnSep (sep : Char) : Str → List Str
  | [] => [[]]
  | c :: cs =>
      if c = sep then [] :: splitOnSep sep cs
      else
        match splitOnSep sep cs with
        | [] => [[c]]
        | p :: ps => (c :: p) :: ps

/-- Split at the first occurrence of `c`; pieces without one map to
`(piece, [])`, matching `URLSearchParams` treating `k` as `k=`. -/
def splitFirst (c : Char) : Str → Str × Str
  | [] => ([], [])
  | x :: xs =>
      if x = c then ([], xs)
      else
        let p := splitFirst c xs
        (x :: p.1, p.2)

/-- `new URLSearchParams(s)`: strips one leading `?`, splits on `&`,
drops empty segments, and splits each segment at its first `=`. Modelled
on inputs free of percent-escapes and `+` (none are produced here). -/
def parseSearchParams (s : Str) : List (Str × Str) :=
  let body : Str :=
    match s with
    | c :: rest => if c = '?' then rest else s
    | [] => s
  (splitOnSep '&' body).filterMap
    (fun piece => if piece = [] then none else some (splitFirst '=' piece))

/-- `String.prototype.replace` with a string pattern: replaces the first
occurrence only. -/
def replaceFirst (pat : Str) : Str → Str
  | [] => []
  | c :: cs =>
      if pat ≠ [] ∧ pat.isPrefixOf (c :: cs) then (c :: cs).drop pat.length
      else c :: replaceFirst pat cs

/-- `params.getAll(key)`: values of every pair with exactly this key. -/
def getAllParams (pairs : List (Str × Str)) (key : Str) : List Str :=
  (pairs.filter (fun p => decide (p.1 = key))).map (fun p => p.2)

/-- The `params.forEach` loop of `buildJsonQuery`: for each pair in order,
strip one `[]` from the key and, if the object does not yet have that key,
set it to the full `getAll` list (over the whole parameter list) with each
value numerically converted. -/
def collectGo (pairs : List (Str × Str)) : List (Str × Str) → Query → Query
  | [], q => q
  | (key, _) :: rest, q =>
      let k := replaceFirst [('[' : Char), (']' : Char)] key
      let q' :=
        if hasOwnQ q k then q
        else q ++ [(k, QVal.list ((getAllParams pairs key).map convVal))]
      collectGo pairs rest q'

/-- The reverse mapping step of `buildJsonQuery`: for each entry
`key ↦ mapped` of `history.map`, if the object has `mapped` then copy its
value to `key` and delete `mapped`. -/
def applyHistMap (hmap : List (Str × Str)) (q : Query) : Query :=
  hmap.foldl
    (fun acc kv =>
      match qget acc kv.2 with
      | some v => qdelete (qset acc kv.1 v) kv.2
      | none => acc)
    q

/-- `buildJsonQuery(query)`: converts a URL query string to a JSON object;
`none` models the `false` returned for the empty string. `hmap` is the
component's `history.map` (empty by default). Every stored value is an
array: the source always assigns `params.getAll(key).map(...)`. -/
def buildJsonQuery (hmap : List (Str × Str)) (query : Str) : Option Query :=
  if query = [] then none
  else
    let pairs := parseSearchParams query
    some (applyHistMap hmap (collectGo pairs pairs []))

example :
    buildUrlQuery
      [(("page").toList, QVal.scalar (Scalar.num 1)),
       (("per_page").toList, QVal.scalar (Scalar.num 5))]
      (some []) (some []) = ("?page=1&per_page=5").toList := by decide

example :
    buildJsonQuery [] (("?page=1&colors[]=4&colors[]=7").toList) =
      some [(("page").toList, QVal.list [Scalar.num 1]),
            (("colors").toList, QVal.list [Scalar.num 4, Scalar.num 7])] := by
  decide

/-! ### Component state

The mutable `data` of the component and the collaborators it touches.
Display-only fields (`name`, `slug` of a filter, `checkbox`, `toggle`,
endpoint strings for the terms request) carry no behaviour used by the
claims and are not modelled. -/

/-- A pagination header value after the `isNaN(header) ? header :
(parseInt(header) || 0)` normalisation: a number or a kept string. -/
inductive HVal where
  | num (n : Int)
  | str (s : Str)
deriving DecidableEq

/-- The `headers` data property: `{pages, total, link}`. -/
structure Headers where
  pages : HVal
  total : HVal
  link : HVal
deriving DecidableEq

/-- The initial `headers` value. -/
def initialHeaders : Headers :=
  { pages := HVal.num 0, total := HVal.num 0,
    link := HVal.str (("rel=\"next\";").toList) }

/-- One entry of the `posts` array. `posts = none` models the literal
`false` assigned by `process` when the payload is not an array (all
consumers read `.length` of it, which is `undefined`, hence falsy — so it
behaves as an empty list). `headers` is absent until `process` runs. -/
structure PageEntry where
  posts : Option (List Nat)
  query : Query
  «show» : Bool
  headers : Option Headers
deriving DecidableEq

/-- One filter (term) of a taxonomy. `id` is the WP term id. -/
structure FilterTerm where
  id : Nat
  active : Bool
  checked : Bool
deriving DecidableEq

/-- One taxonomy from the `terms` data property. The `checked` property is
absent until first set by `click`/`filterAll` (the terms map does not
initialise it). -/
structure Tax where
  slug : Str
  active : Bool
  checked : Option Bool
  filters : List FilterTerm
deriving DecidableEq

/-- A call to the external `error` collaborator: `payload q` is
`this.error({error: data, query: q})` from `process`; `exn` is the final
`.catch(this.error)` receiving a rejection (network failure or a body that
is not JSON). -/
inductive ErrCall where
  | payload (q : Query)
  | exn
deriving DecidableEq

/-- A parsed JSON response body: an array of raw posts (modelled by ids,
mapped through the injected post map), or any non-array JSON value. -/
inductive JsonVal where
  | arr (items : List Nat)
  | other
deriving DecidableEq

/-- Outcome of `fetch(url)`: a network rejection, or a response with an
`ok` flag, the three pagination headers (absent ↦ `null`), and a body
(`none` models `response.json()` rejecting — a non-JSON body). -/
inductive FetchResp where
  | netfail
  | resp (ok : Bool) (total pages link : Option Str) (body : Option JsonVal)

/-- The network, as a deterministic map from request URL to outcome. -/
abbrev Env := Str → FetchResp

/-- Per-instance configuration: the props/data that the claims' methods
read but never write. `postMap` is the injected `maps()[this.type]`
response mapper, abstracted on raw post ids. -/
structure Config where
  domain : Str
  langPath : Str
  postsEndpoint : Str
  params : List Str
  historyOmit : List Str
  historyMap : List (Str × Str)
  filterParams : Bool
  pathname : Str
  postMap : Nat → Nat

/-- The mutable component state. `posts` is the sparse page-indexed array
(index 0 permanently unused); `errors` records each call to the error
collaborator in order; `history` records each URL written through
`window.history.replaceState` in order. -/
structure AppState where
  init : Bool
  query : Query
  headers : Headers
  posts : List (Option PageEntry)
  terms : List Tax
  errors : List ErrCall
  history : List Str
deriving DecidableEq

/-- Array read at a natural index (out-of-range indices and stored holes
are both `undefined`). -/
def getIdx : List (Option PageEntry) → Nat → Option PageEntry
  | [], _ => none
  | x :: _, 0 => x
  | _ :: xs, n + 1 => getIdx xs n

/-- Array read `posts[i]` (negative indices are also `undefined`). -/
def entryAt (posts : List (Option PageEntry)) (i : Int) : Option PageEntry :=
  if 0 ≤ i then getIdx posts i.toNat else none

/-- `Vue.set(this.posts, i, e)`: writes index `i`, growing the array with
holes if needed (as `Vue.set` does on arrays). -/
def setIdx : List (Option PageEntry) → Nat → PageEntry →
    List (Option PageEntry)
  | [], 0, e => [some e]
  | [], n + 1, e => none :: setIdx [] n e
  | _ :: xs, 0, e => some e :: xs
  | x :: xs, n + 1, e => x :: setIdx xs n e

/-- Update the entry at a natural index in place (no-op when absent). -/
def updEntry : List (Option PageEntry) → Nat → (PageEntry → PageEntry) →
    List (Option PageEntry)
  | [], _, _ => []
  | x :: xs, 0, f => (x.map f) :: xs
  | x :: xs, n + 1, f => x :: updEntry xs n f

/-- Update the entry at an integer page index (negative indices touch no
array slot). -/
def updEntryI (posts : List (Option PageEntry)) (i : Int)
    (f : PageEntry → PageEntry) : List (Option PageEntry) :=
  if 0 ≤ i then updEntry posts i.toNat f else posts

/-- The hide-all loop of `updateQuery`: `show = false` on every entry. -/
def hideAll (posts : List (Option PageEntry)) : List (Option PageEntry) :=
  posts.map (Option.map (fun e => { e with «show» := false }))

/-- JavaScript `page < pages` where `pages` is a stored header value (a
string compares via numeric coercion; `NaN` comparisons are false). -/
def jsLtH (a : Int) (h : HVal) : Bool :=
  match h with
  | HVal.num m => decide (a < m)
  | HVal.str s =>
      match jsToNum? s with
      | some m => decide (a < m)
      | none => false

/-- `isNaN(header) ? header : (parseInt(header) || 0)` for one header
(`response.headers.get` yields `null` for a missing header, which coerces
to `0`). -/
def parseHeaderVal (h : Option Str) : HVal :=
  match h with
  | none => HVal.num 0
  | some s =>
      match jsToNum? s with
      | some n => HVal.num n
      | none => HVal.str s

/-- The headers object built by `response` from `X-WP-Total`,
`X-WP-TotalPages` and `Link`. -/
def parseRespHeaders (total pages link : Option Str) : Headers :=
  { total := parseHeaderVal total, pages := parseHeaderVal pages,
    link := parseHeaderVal link }

/-! ### The fetch pipeline: `wpQuery`, `response`, `process`,
`replaceState`, `queue` -/

/-- The request URL built by `wpQuery`: domain, language path, endpoint,
and the encoded query restricted to the allow-listed params. -/
def wpUrl (cfg : Config) (query : Query) : Str :=
  cfg.domain ++ cfg.langPath ++ cfg.postsEndpoint ++
    buildUrlQuery (query.filter (fun kv => elemStr cfg.params kv.1)) none none

/-- The store half of `wpQuery`: before the fetch is issued, the target
page's entry is (re)created with empty posts, the frozen target query, and
`show = (this.query.page >= query.page)`. -/
def wpQueryStore (st : AppState) (query : Query) : AppState :=
  let e : PageEntry :=
    { posts := some [], query := query,
      «show» := decide (getPage st.query ≥ getPage query), headers := none }
  { st with posts := setIdx st.posts (getPage query).toNat e }

/-- `replaceState(query)`: filters params if configured, encodes with the
history omissions and rename map, and writes the address bar. -/
def replaceState (cfg : Config) (st : AppState) (query : Query) : AppState :=
  let hist := if cfg.filterParams
    then query.filter (fun kv => elemStr cfg.params kv.1) else query
  { st with history := st.history ++
      [cfg.pathname ++ buildUrlQuery hist (some cfg.historyOmit) (some cfg.historyMap)] }

/-- `process(data, query, headers)`: maps an array payload through the
post map (a non-array payload stores the `false` marker), stores the
headers snapshot on the entry, reports non-array payloads to the error
collaborator, and switches `init` on. -/
def process (cfg : Config) (st : AppState) (data : JsonVal) (query : Query)
    (hdrs : Headers) : AppState :=
  let posts : Option (List Nat) :=
    match data with
    | JsonVal.arr l => some (l.map cfg.postMap)
    | JsonVal.other => none
  let st1 := { st with posts := (updEntryI st.posts (getPage query)
      (fun e => { e with posts := posts, headers := some hdrs })) }
  let st2 :=
    match data with
    | JsonVal.arr _ => st1
    | JsonVal.other => { st1 with errors := st1.errors ++ [ErrCall.payload query] }
  { st2 with init := true }

/-- The cache test of one `queue` iteration: `havePage &&
pageQueryMatches` — an entry exists at the target page and its
page-stripped query snapshot `JSON.stringify`-equals the benchmark `Obj1`
(stringify equality on this value domain is structural equality in key
order). -/
def skipCacheB (st : AppState) (obj1 : Query) (tp : Int) : Bool :=
  match entryAt st.posts tp with
  | some e => decide (stripPage e.query = obj1)
  | none => false

/-- `current`: the target is the page being viewed. -/
def isCurrent (st : AppState) (tp : Int) : Bool := decide (tp = getPage st.query)

/-- `next`: `page < pages` (from the stored headers) and the target is
beyond the current page. -/
def isNext (st : AppState) (tp : Int) : Bool :=
  jsLtH (getPage st.query) st.headers.pages && decide (getPage st.query < tp)

/-- `previous`: the current page is above 1 and the target is before it. -/
def isPrevious (st : AppState) (tp : Int) : Bool :=
  decide (1 < getPage st.query) && decide (tp < getPage st.query)

/-- The promise chain of one performed `queue` request: store the
placeholder entry, issue the request, parse headers on an ok status,
replace the browser state when the target is current, and process the
payload. Rejections anywhere in the chain land in `.catch(this.error)`. -/
def queueFetch (cfg : Config) (env : Env) (st : AppState) (query : Query)
    (cur : Bool) : AppState :=
  let st1 := wpQueryStore st query
  match env (wpUrl cfg query) with
  | FetchResp.netfail => { st1 with errors := st1.errors ++ [ErrCall.exn] }
  | FetchResp.resp ok t p l body =>
    let st2 := if ok then { st1 with headers := parseRespHeaders t p l } else st1
    match body with
    | none => { st2 with errors := st2.errors ++ [ErrCall.exn] }
    | some data =>
      let st3 := if cur then replaceState cfg st2 query else st2
      process cfg st3 data query st3.headers

/-- One iteration of the `queue` loop for the relative offset `o`:
build the target query, skip non-positive pages, skip fresh cache hits,
skip unclassified targets; otherwise run the fetch chain. -/
def queueStep (cfg : Config) (env : Env) (obj1 : Query) (st : AppState)
    (o : Int) : AppState :=
  let tp := getPage st.query + o
  let query := qset st.query pageKey (QVal.scalar (Scalar.num tp))
  if tp ≤ 0 then st
  else if skipCacheB st obj1 tp then st
  else if isCurrent st tp || isNext st tp || isPrevious st tp then
    queueFetch cfg env st query (isCurrent st tp)
  else st

/-- `queue(queries)`: snapshots the page-stripped benchmark query once,
then runs the offsets strictly in order, each iteration awaiting the
previous one. -/
def queueRun (cfg : Config) (env : Env) (st : AppState)
    (queries : List Int) : AppState :=
  queries.foldl (queueStep cfg env (stripPage st.query)) st

/-! ### Query mutations: `updateQuery`, `filter`, `filterAll`, `click`,
`reset`, `paginate` -/

/-- `updateQuery(taxonomy, terms)`: set the taxonomy's term list, reset
`page` to 1, hide every cached page, then run the default queue. -/
def updateQuery (cfg : Config) (env : Env) (st : AppState) (taxonomy : Str)
    (terms : List Scalar) : AppState :=
  let st1 := { st with
    query := qset (qset st.query taxonomy (QVal.list terms)) pageKey
      (QVal.scalar (Scalar.num 1)),
    posts := hideAll st.posts }
  queueRun cfg env st1 [0, 1]

/-- `filter(taxonomy, term)`: toggle one term id in the taxonomy's query
list (initialising the list when the key is absent). A non-array value at
the key is a `TypeError` in the source (`terms.includes` on a non-array)
and is modelled as leaving the state unchanged; no reachable state hits
it. -/
def filterOp (cfg : Config) (env : Env) (st : AppState) (taxonomy : Str)
    (term : Nat) : AppState :=
  match qget st.query taxonomy with
  | some (QVal.list l) =>
      let terms :=
        if decide (Scalar.num (term : Int) ∈ l)
        then l.filter (fun a => decide (¬(a = Scalar.num (term : Int))))
        else l ++ [Scalar.num (term : Int)]
      updateQuery cfg env st taxonomy terms
  | some (QVal.scalar _) => st
  | none => updateQuery cfg env st taxonomy [Scalar.num (term : Int)]

/-- `this.terms.find(t => t.slug === slug)`. -/
def findTax : List Tax → Str → Option Tax
  | [], _ => none
  | t :: rest, slug => if t.slug = slug then some t else findTax rest slug

/-- Update the first taxonomy with the given slug (the object `find`
returns a reference to). -/
def updFirstTax : List Tax → Str → (Tax → Tax) → List Tax
  | [], _, _ => []
  | t :: rest, slug, f =>
      if t.slug = slug then f t :: rest else t :: updFirstTax rest slug f

/-- Update the first filter with the given id inside a filter list (the
clicked filter object; term ids are unique within a taxonomy). -/
def updFirstFilterTerm : List FilterTerm → Nat → (FilterTerm → FilterTerm) →
    List FilterTerm
  | [], _, _ => []
  | f :: rest, i, g =>
      if f.id = i then g f :: rest else f :: updFirstFilterTerm rest i g

/-- `tax.filters.filter(t => t.checked).length === tax.filters.length`:
the derived all-checked state of a taxonomy. -/
def allCheckedB (t : Tax) : Bool :=
  decide ((t.filters.filter (fun f => f.checked)).length = t.filters.length)

/-- `$set(event.data, 'checked', !event.data.checked)`: flip the checked
state of the filter with the clicked id inside a taxonomy. -/
def flipFilterTax (i : Nat) (t : Tax) : Tax :=
  { t with filters := (updFirstFilterTerm t.filters i
      (fun f => { f with checked := !f.checked })) }

/-- `$set(tax, 'checked', c)`. -/
def setCheckedTax (c : Bool) (t : Tax) : Tax := { t with checked := some c }

/-- The terms mutation of `click`'s term branch: flip the clicked filter's
`checked`, then store the recomputed all-checked state on the taxonomy. -/
def clickTermsUpd (terms : List Tax) (slug : Str) (i : Nat) : List Tax :=
  let terms1 := updFirstTax terms slug (flipFilterTax i)
  match findTax terms1 slug with
  | none => terms1
  | some tax => updFirstTax terms1 slug (setCheckedTax (allCheckedB tax))

/-- `filterAll(taxonomy)`: toggle every filter of the taxonomy to the
negation of its (stored, else derived) checked state and update the query
to all term ids or to the empty list. A missing taxonomy is a `TypeError`
in the source and is modelled as leaving the state unchanged. -/
def filterAll (cfg : Config) (env : Env) (st : AppState) (slug : Str) : AppState :=
  match findTax st.terms slug with
  | none => st
  | some tax =>
    let checked :=
      match tax.checked with
      | some c => !c
      | none => !(allCheckedB tax)
    let st1 := { st with terms := updFirstTax st.terms slug (fun t =>
      { t with checked := some checked,
               filters := t.filters.map (fun f => { f with checked := checked }) }) }
    updateQuery cfg env st1 slug
      (if checked then tax.filters.map (fun f => Scalar.num (f.id : Int)) else [])

/-- `click(event)` with `event.data` the filter object (`parent = slug`,
`id = i`): a zero id is falsy, so `event.data.id || false` routes to
`filterAll`; otherwise flip the filter, recompute the taxonomy's checked
state, and run `filter`. A missing taxonomy throws in the source
(`tax.filters` on `undefined`) and is modelled as leaving the state
unchanged. -/
def click (cfg : Config) (env : Env) (st : AppState) (slug : Str) (i : Nat) :
    AppState :=
  if i = 0 then filterAll cfg env st slug
  else
    match findTax st.terms slug with
    | none => st
    | some _ =>
        filterOp cfg env { st with terms := clickTermsUpd st.terms slug i } slug i

/-- The synchronous mutations of one `reset` loop iteration's
`updateQuery` call (its queued fetch run is deferred to a microtask, so
all iterations' mutations happen before any fetch run starts). -/
def resetMut (st : AppState) (slug : Str) : AppState :=
  { st with
    query := qset (qset st.query slug (QVal.list [])) pageKey
      (QVal.scalar (Scalar.num 1)),
    posts := hideAll st.posts }

/-- `reset()`: for every taxonomy, clear its query key, reset the page,
hide the cache, and uncheck the taxonomy and all its filters; the deferred
fetch runs (one per `updateQuery` call, each snapshotting the then-current
query) then execute in order. -/
def reset (cfg : Config) (env : Env) (st : AppState) : AppState :=
  let slugs := st.terms.map (fun t => t.slug)
  let st1 := slugs.foldl resetMut st
  let st2 := { st1 with terms := st1.terms.map (fun t =>
    { t with checked := some false,
             filters := t.filters.map (fun f => { f with checked := false }) }) }
  slugs.foldl (fun s _ => queueRun cfg env s [0, 1]) st2

/-- `paginate(event)` with delta `change`: set `query.page += change`
unconditionally, then reveal the target entry and start the queue for
offsets `[0, change]`. When no entry exists at the new page, `Vue.set` on
`undefined` throws inside the promise executor, so the queue is never
invoked; the page number mutation has already happened. -/
def paginate (cfg : Config) (env : Env) (st : AppState) (change : Int) :
    AppState :=
  let page := getPage st.query + change
  let st1 := { st with query := qset st.query pageKey (QVal.scalar (Scalar.num page)) }
  match entryAt st1.posts page with
  | some _ =>
      let st2 := { st1 with posts := (updEntryI st1.posts page
        (fun e => { e with «show» := true })) }
      queueRun cfg env st2 [0, change]
  | none => st1

/-- The `loading` computed property. `none` models the `TypeError` thrown
when `page.posts` is read off an `undefined` entry (reached only when
`init` is true, the array is nonempty, and no entry exists at
`query.page`; the `&&` chain short-circuits on `init` first). -/
def loading (st : AppState) : Option Bool :=
  if st.posts.length = 0 then some false
  else if st.init = false then some false
  else
    match entryAt st.posts (getPage st.query) with
    | some e =>
        some ((match e.posts with
               | none => true
               | some l => l.isEmpty) && e.«show»)
    | none => none

/-! ### Specification scaffolding for the codec round trip

The `&`-joined token strings of one query key, and the `(key, value)`
parameter pairs `URLSearchParams` recovers from them. -/

/-- The token strings one key contributes to the encoded query string. -/
def chunkStrs (kv : Str × QVal) : List Str :=
  match kv.2 with
  | QVal.list l => l.map (fun a =>
      kv.1 ++ [('[' : Char), (']' : Char), ('=' : Char)] ++ scalarToStr a)
  | QVal.scalar v => [kv.1 ++ [('=' : Char)] ++ scalarToStr v]

/-- The parameter pairs one key contributes after URL parsing. -/
def pairTokens (kv : Str × QVal) : List (Str × Str) :=
  match kv.2 with
  | QVal.list l => l.map (fun a =>
      (kv.1 ++ [('[' : Char), (']' : Char)], scalarToStr a))
  | QVal.scalar v => [(kv.1, scalarToStr v)]

/-- All parameter pairs of a query, in order. -/
def flatPairs : Query → List (Str × Str)
  | [] => []
  | kv :: rest => pairTokens kv ++ flatPairs rest

/-- All token strings of a query, in order. -/
def flatChunks : Query → List Str
  | [] => []
  | kv :: rest => chunkStrs kv ++ flatChunks rest

/-- A query value that is a nonempty array of numbers — the value shape
on which the encode/decode round trip is exact. -/
def isNumListB : QVal → Bool
  | QVal.scalar _ => false
  | QVal.list l =>
      decide (¬(l = [])) && l.all (fun a =>
        match a with
        | Scalar.num _ => true
        | Scalar.str _ => false)

/-! ### Concrete fixtures used by the counterexamples and witnesses -/

/-- The `"per_page"` key. -/
def perPageKey : Str := ("per_page").toList

/-- A configuration with the component's default values: empty domain and
language path, the default posts endpoint, the default safe-params
allow-list, the default history settings, and an identity post map. -/
def cfgD : Config :=
  { domain := [], langPath := [],
    postsEndpoint := ("/wp-json/wp/v2/posts").toList,
    params := [("context").toList, ("page").toList, ("per_page").toList,
      ("search").toList, ("after").toList, ("author").toList,
      ("author_exclude").toList, ("before").toList, ("exclude").toList,
      ("include").toList, ("offset").toList, ("order").toList,
      ("orderby").toList, ("slug").toList, ("status").toList,
      ("tax_relation").toList, ("categories").toList,
      ("categories_exclude").toList, ("tags").toList,
      ("tags_exclude").toList, ("sticky").toList],
    historyOmit := [("page").toList, ("per_page").toList],
    historyMap := [], filterParams := false,
    pathname := ("/archive").toList, postMap := fun n => n }

/-- The default initial query `{page: 1, per_page: 5}`. -/
def qD : Query :=
  [(pageKey, QVal.scalar (Scalar.num 1)),
   (perPageKey, QVal.scalar (Scalar.num 5))]

/-- The freshly mounted state: default query, initial headers, no cached
pages, no terms. -/
def stD : AppState :=
  { init := false, query := qD, headers := initialHeaders, posts := [],
    terms := [], errors := [], history := [] }

/-- A network that always answers ok with `X-WP-Total: 12`,
`X-WP-TotalPages: 3` and a five-item array body. -/
def envOk : Env := fun _ =>
  FetchResp.resp true (some (("12").toList)) (some (("3").toList)) none
    (some (JsonVal.arr [1, 2, 3, 4, 5]))

/-- A network that always answers 404-style: not ok, no pagination
headers, and a JSON error-object body (not an array). -/
def envErr : Env := fun _ =>
  FetchResp.resp false none none none (some JsonVal.other)

/-- A two-filter `colors` taxonomy with nothing checked and no stored
`checked` property, as the terms map first builds it. -/
def taxColors : Tax :=
  { slug := ("colors").toList, active := false, checked := none,
    filters := [{ id := 1, active := false, checked := false },
                { id := 2, active := false, checked := false }] }

/-- The `"colors"` taxonomy key. -/
def colorsKey : Str := ("colors").toList

/-- The `colors` taxonomy with its first filter checked. -/
def taxColorsChk : Tax :=
  { slug := colorsKey, active := false, checked := some false,
    filters := [{ id := 1, active := true, checked := true },
                { id := 2, active := false, checked := false }] }

/-- State in which only the `colors = [1]` filter is applied. -/
def stColors : AppState :=
  { init := true,
    query := qD ++ [(colorsKey, QVal.list [Scalar.num 1])],
    headers := initialHeaders, posts := [], terms := [taxColorsChk],
    errors := [], history := [] }

/-- A resolved, visible page-1 entry for the default query. -/
def entryPage1 : PageEntry :=
  { posts := some [1, 2, 3, 4, 5], query := qD, «show» := true,
    headers := none }

/-- An initialized state whose `query.page` points past the cached pages:
page 1 is cached but `query.page` is 2 and no entry exists there. -/
def stPastEnd : AppState :=
  { init := true, query := qset qD pageKey (QVal.scalar (Scalar.num 2)),
    headers := initialHeaders, posts := [none, some entryPage1],
    terms := [], errors := [], history := [] }

/-- An initialized state on page 1 with page 1 cached and three total
pages known from the last response's headers. -/
def stPaged : AppState :=
  { init := true, query := qD,
    headers := { pages := HVal.num 3, total := HVal.num 12, link := HVal.num 0 },
    posts := [none, some entryPage1], terms := [], errors := [], history := [] }

/-- A stale visible entry cached at page 3 under an older filter state. -/
def entryStale : PageEntry :=
  { posts := some [7],
    query := qD ++ [(("older").toList, QVal.scalar (Scalar.num 9))],
    «show» := true, headers := none }

/-- A state holding a cached page 3 from an earlier filter generation,
with the `colors` taxonomy available to toggle. -/
def stStale : AppState :=
  { init := true, query := qD, headers := initialHeaders,
    posts := [none, none, none, some entryStale], terms := [taxColors],
    errors := [], history := [] }

/-- Every cached entry's page-stripped snapshot equals the page-stripped
query, or the entry is hidden. -/
def freshOrHidden (q : Query) (posts : List (Option PageEntry)) : Prop :=
  ∀ i e, entryAt posts i = some e →
    stripPage e.query = stripPage q ∨ e.«show» = false

/-- The post-state contract of any filter mutation: the page is reset to 1
and the cache holds only entries that are fresh for the new filter state
or hidden. -/
def pageFresh (st : AppState) : Prop :=
  getPage st.query = 1 ∧ freshOrHidden st.query st.posts

/-- Whether the query value at a key is a scalar — the shape on which
`filter`'s `terms.includes(term)` would throw a `TypeError` in the source
(taxonomy keys always hold arrays in reachable states). -/
def isScalarAt (q : Query) (k : Str) : Bool :=
  match qget q k with
  | some (QVal.scalar _) => true
  | _ => false

/-! ## Lemmas: the query object -/

theorem qget_qset_self (q : Query) (k : Str) (v : QVal) :
    qget (qset q k v) k = some v := by
  induction q with
  | nil => simp [qget, qset, assoc?]
  | cons kv rest ih =>
      cases kv with
      | mk k' v' =>
          by_cases h : k' = k
          · simp [qset, h, qget, assoc?]
          · simpa [qset, h, qget, assoc?] using ih

theorem qget_qset_ne (q : Query) (k : Str) (v : QVal) (k2 : Str)
    (h : ¬(k = k2)) : qget (qset q k v) k2 = qget q k2 := by
  induction q with
  | nil => simp [qget, qset, assoc?, h]
  | cons kv rest ih =>
      cases kv with
      | mk k' v' =>
          by_cases h' : k' = k
          · subst h'; simp [qset, qget, assoc?, h]
          · by_cases h2 : k' = k2
            · have h3 : ¬(k2 = k) := fun he => h he.symm
              simp [qset, h', qget, assoc?, h2, h3]
            · simpa [qset, h', qget, assoc?, h2] using ih

theorem getPage_qset_page (q : Query) (p : Int) :
    getPage (qset q pageKey (QVal.scalar (Scalar.num p))) = p := by
  simp [getPage, qget_qset_self]

theorem getPage_eq_of_qget (q : Query) (p : Int)
    (h : qget q pageKey = some (QVal.scalar (Scalar.num p))) : getPage q = p := by
  simp [getPage, h]

theorem qdelete_cons (k' : Str) (v' : QVal) (rest : Query) (k : Str) :
    qdelete ((k', v') :: rest) k =
      if k' = k then qdelete rest k else (k', v') :: qdelete rest k := by
  by_cases h : k' = k <;> simp [qdelete, List.filter_cons, h]

theorem qdelete_qset_self (q : Query) (k : Str) (v : QVal) :
    qdelete (qset q k v) k = qdelete q k := by
  induction q with
  | nil => simp [qset, qdelete]
  | cons kv rest ih =>
      cases kv with
      | mk k' v' =>
          by_cases h : k' = k
          · subst h; simp [qset, qdelete_cons]
          · simp [qset, h, qdelete_cons, ih]

theorem stripPage_qset_page (q : Query) (v : QVal) :
    stripPage (qset q pageKey v) = stripPage q := by
  simp [stripPage, qdelete_qset_self]

/-! ## Lemmas: the sparse posts array -/

theorem getIdx_setIdx_self (ps : List (Option PageEntry)) (n : Nat)
    (e : PageEntry) : getIdx (setIdx ps n e) n = some e := by
  induction n generalizing ps with
  | zero => cases ps <;> rfl
  | succ n ih =>
      cases ps with
      | nil => simpa [setIdx, getIdx] using ih []
      | cons x xs => simpa [setIdx, getIdx] using ih xs

theorem getIdx_setIdx_ne (ps : List (Option PageEntry)) (n : Nat)
    (e : PageEntry) (m : Nat) (h : ¬(n = m)) :
    getIdx (setIdx ps n e) m = getIdx ps m := by
  induction n generalizing ps m with
  | zero =>
      cases m with
      | zero => exact absurd rfl h
      | succ m => cases ps <;> rfl
  | succ n ih =>
      cases ps with
      | nil =>
          cases m with
          | zero => rfl
          | succ m =>
              have := ih [] m (by intro he; exact h (by rw [he]))
              simpa [setIdx, getIdx] using this
      | cons x xs =>
          cases m with
          | zero => rfl
          | succ m =>
              have := ih xs m (by intro he; exact h (by rw [he]))
              simpa [setIdx, getIdx] using this

theorem getIdx_updEntry_self (ps : List (Option PageEntry)) (n : Nat)
    (f : PageEntry → PageEntry) :
    getIdx (updEntry ps n f) n = (getIdx ps n).map f := by
  induction n generalizing ps with
  | zero => cases ps <;> rfl
  | succ n ih =>
      cases ps with
      | nil => rfl
      | cons x xs => simpa [updEntry, getIdx] using ih xs

theorem getIdx_updEntry_ne (ps : List (Option PageEntry)) (n : Nat)
    (f : PageEntry → PageEntry) (m : Nat) (h : ¬(n = m)) :
    getIdx (updEntry ps n f) m = getIdx ps m := by
  induction n generalizing ps m with
  | zero =>
      cases m with
      | zero => exact absurd rfl h
      | succ m => cases ps <;> rfl
  | succ n ih =>
      cases ps with
      | nil => rfl
      | cons x xs =>
          cases m with
          | zero => rfl
          | succ m =>
              have := ih xs m (by intro he; exact h (by rw [he]))
              simpa [updEntry, getIdx] using this

theorem getIdx_hideAll (ps : List (Option PageEntry)) (n : Nat) :
    getIdx (hideAll ps) n =
      (getIdx ps n).map (fun e => { e with «show» := false }) := by
  induction ps generalizing n with
  | nil => cases n <;> rfl
  | cons x xs ih =>
      cases n with
      | zero => cases x <;> rfl
      | succ n => simpa [hideAll, getIdx] using ih n

theorem entryAt_setIdx_self (ps : List (Option PageEntry)) (i : Int)
    (e : PageEntry) (h : 0 ≤ i) :
    entryAt (setIdx ps i.toNat e) i = some e := by
  simp [entryAt, h, getIdx_setIdx_self]

theorem entryAt_setIdx_ne (ps : List (Option PageEntry)) (i : Int)
    (e : PageEntry) (j : Int) (hi : 0 ≤ i) (h : ¬(i = j)) :
    entryAt (setIdx ps i.toNat e) j = entryAt ps j := by
  by_cases hj : 0 ≤ j
  · have : ¬(i.toNat = j.toNat) := by omega
    simp [entryAt, hj, getIdx_setIdx_ne _ _ _ _ this]
  · simp [entryAt, hj]

theorem entryAt_updEntryI_self (ps : List (Option PageEntry)) (i : Int)
    (f : PageEntry → PageEntry) (h : 0 ≤ i) :
    entryAt (updEntryI ps i f) i = (entryAt ps i).map f := by
  simp [entryAt, updEntryI, h, getIdx_updEntry_self]

theorem entryAt_updEntryI_ne (ps : List (Option PageEntry)) (i : Int)
    (f : PageEntry → PageEntry) (j : Int) (h : ¬(i = j)) :
    entryAt (updEntryI ps i f) j = entryAt ps j := by
  by_cases hi : 0 ≤ i
  · by_cases hj : 0 ≤ j
    · have : ¬(i.toNat = j.toNat) := by omega
      simp [entryAt, updEntryI, hi, hj, getIdx_updEntry_ne _ _ _ _ this]
    · simp [entryAt, updEntryI, hi, hj]
  · simp [updEntryI, hi]

theorem entryAt_hideAll (ps : List (Option PageEntry)) (j : Int) :
    entryAt (hideAll ps) j =
      (entryAt ps j).map (fun e => { e with «show» := false }) := by
  by_cases hj : 0 ≤ j <;> simp [entryAt, hj, getIdx_hideAll]

/-! ## Lemmas: state projections through the fetch pipeline -/

theorem wpQueryStore_query (st : AppState) (q : Query) :
    (wpQueryStore st q).query = st.query := rfl

theorem wpQueryStore_terms (st : AppState) (q : Query) :
    (wpQueryStore st q).terms = st.terms := rfl

theorem replaceState_query (cfg : Config) (st : AppState) (q : Query) :
    (replaceState cfg st q).query = st.query := rfl

theorem replaceState_terms (cfg : Config) (st : AppState) (q : Query) :
    (replaceState cfg st q).terms = st.terms := rfl

theorem replaceState_posts (cfg : Config) (st : AppState) (q : Query) :
    (replaceState cfg st q).posts = st.posts := rfl

theorem replaceState_headers (cfg : Config) (st : AppState) (q : Query) :
    (replaceState cfg st q).headers = st.headers := rfl

theorem process_query (cfg : Config) (st : AppState) (d : JsonVal) (q : Query)
    (h : Headers) : (process cfg st d q h).query = st.query := by
  cases d <;> rfl

theorem process_terms (cfg : Config) (st : AppState) (d : JsonVal) (q : Query)
    (h : Headers) : (process cfg st d q h).terms = st.terms := by
  cases d <;> rfl

theorem process_headers (cfg : Config) (st : AppState) (d : JsonVal) (q : Query)
    (h : Headers) : (process cfg st d q h).headers = st.headers := by
  cases d <;> rfl

theorem process_posts (cfg : Config) (st : AppState) (d : JsonVal) (q : Query)
    (h : Headers) :
    (process cfg st d q h).posts = updEntryI st.posts (getPage q)
      (fun e => { e with
        posts := (match d with
                  | JsonVal.arr l => some (l.map cfg.postMap)
                  | JsonVal.other => none),
        headers := some h }) := by
  cases d <;> rfl

theorem queueFetch_query (cfg : Config) (env : Env) (st : AppState)
    (query : Query) (cur : Bool) :
    (queueFetch cfg env st query cur).query = st.query := by
  unfold queueFetch
  cases env (wpUrl cfg query) with
  | netfail => rfl
  | resp ok t p l body =>
      cases body with
      | none => cases ok <;> rfl
      | some data => cases ok <;> cases cur <;> cases data <;> rfl

theorem queueFetch_terms (cfg : Config) (env : Env) (st : AppState)
    (query : Query) (cur : Bool) :
    (queueFetch cfg env st query cur).terms = st.terms := by
  unfold queueFetch
  cases env (wpUrl cfg query) with
  | netfail => rfl
  | resp ok t p l body =>
      cases body with
      | none => cases ok <;> rfl
      | some data => cases ok <;> cases cur <;> cases data <;> rfl

theorem queueStep_query (cfg : Config) (env : Env) (obj1 : Query)
    (st : AppState) (o : Int) :
    (queueStep cfg env obj1 st o).query = st.query := by
  unfold queueStep
  dsimp only
  split
  · rfl
  · split
    · rfl
    · split
      · exact queueFetch_query _ _ _ _ _
      · rfl

theorem queueStep_terms (cfg : Config) (env : Env) (obj1 : Query)
    (st : AppState) (o : Int) :
    (queueStep cfg env obj1 st o).terms = st.terms := by
  unfold queueStep
  dsimp only
  split
  · rfl
  · split
    · rfl
    · split
      · exact queueFetch_terms _ _ _ _ _
      · rfl

theorem foldl_queueStep_query (cfg : Config) (env : Env) (obj1 : Query)
    (l : List Int) (st : AppState) :
    (l.foldl (queueStep cfg env obj1) st).query = st.query := by
  induction l generalizing st with
  | nil => rfl
  | cons o rest ih => rw [List.foldl_cons, ih, queueStep_query]

theorem foldl_queueStep_terms (cfg : Config) (env : Env) (obj1 : Query)
    (l : List Int) (st : AppState) :
    (l.foldl (queueStep cfg env obj1) st).terms = st.terms := by
  induction l generalizing st with
  | nil => rfl
  | cons o rest ih => rw [List.foldl_cons, ih, queueStep_terms]

theorem queueRun_query (cfg : Config) (env : Env) (st : AppState)
    (l : List Int) : (queueRun cfg env st l).query = st.query :=
  foldl_queueStep_query _ _ _ _ _

theorem queueRun_terms (cfg : Config) (env : Env) (st : AppState)
    (l : List Int) : (queueRun cfg env st l).terms = st.terms :=
  foldl_queueStep_terms _ _ _ _ _

theorem updateQuery_query (cfg : Config) (env : Env) (st : AppState)
    (taxonomy : Str) (terms : List Scalar) :
    (updateQuery cfg env st taxonomy terms).query =
      qset (qset st.query taxonomy (QVal.list terms)) pageKey
        (QVal.scalar (Scalar.num 1)) := by
  unfold updateQuery
  rw [queueRun_query]

theorem updateQuery_terms (cfg : Config) (env : Env) (st : AppState)
    (taxonomy : Str) (terms : List Scalar) :
    (updateQuery cfg env st taxonomy terms).terms = st.terms := by
  unfold updateQuery
  rw [queueRun_terms]

theorem queueFetch_entry_eq (cfg : Config) (env : Env) (st : AppState)
    (query : Query) (cur : Bool) (h : (0 : Int) ≤ getPage query) :
    (entryAt (queueFetch cfg env st query cur).posts (getPage query)).map
      (fun e => (e.query, e.«show»)) =
    some (query, decide (getPage st.query ≥ getPage query)) := by
  have hw : entryAt (wpQueryStore st query).posts (getPage query) = some
      { posts := some [], query := query,
        «show» := decide (getPage st.query ≥ getPage query), headers := none } :=
    entryAt_setIdx_self _ _ _ h
  unfold queueFetch
  cases henv : env (wpUrl cfg query) with
  | netfail => simp [hw]
  | resp ok t p l body =>
      cases body with
      | none => cases ok <;> simp [hw]
      | some data =>
          cases ok <;> cases cur <;>
            simp [process_posts, replaceState_posts,
              entryAt_updEntryI_self _ _ _ h, hw]

theorem queueFetch_entry_other (cfg : Config) (env : Env) (st : AppState)
    (query : Query) (cur : Bool) (j : Int) (h : (0 : Int) ≤ getPage query)
    (hj : ¬(getPage query = j)) :
    entryAt (queueFetch cfg env st query cur).posts j = entryAt st.posts j := by
  have hw : entryAt (wpQueryStore st query).posts j = entryAt st.posts j :=
    entryAt_setIdx_ne _ _ _ _ h hj
  unfold queueFetch
  cases henv : env (wpUrl cfg query) with
  | netfail => simp [hw]
  | resp ok t p l body =>
      cases body with
      | none => cases ok <;> simp [hw]
      | some data =>
          cases ok <;> cases cur <;>
            simp [process_posts, replaceState_posts,
              entryAt_updEntryI_ne _ _ _ _ hj, hw]

theorem wpQueryStore_headers (st : AppState) (q : Query) :
    (wpQueryStore st q).headers = st.headers := rfl

theorem queueFetch_headers_or (cfg : Config) (env : Env) (st : AppState)
    (query : Query) (cur : Bool) :
    (queueFetch cfg env st query cur).headers = st.headers ∨
    (∃ t p l b, env (wpUrl cfg query) = FetchResp.resp true t p l b ∧
      (queueFetch cfg env st query cur).headers = parseRespHeaders t p l) := by
  unfold queueFetch
  cases henv : env (wpUrl cfg query) with
  | netfail => left; rfl
  | resp ok t p l body =>
      cases ok with
      | false =>
          left
          cases body with
          | none => rfl
          | some data =>
              cases cur <;>
                simp [process_headers, replaceState_headers, wpQueryStore_headers]
      | true =>
          right
          refine ⟨t, p, l, body, rfl, ?_⟩
          cases body with
          | none => rfl
          | some data =>
              cases cur <;>
                simp [process_headers, replaceState_headers]

/-! ## The cache invariant behind filter changes

After a filter mutation every cached entry is either freshly stored for
the new filter state or hidden; the queue only ever stores entries whose
page-stripped snapshot is the current filter state. -/

theorem freshOrHidden_hideAll (q : Query) (ps : List (Option PageEntry)) :
    freshOrHidden q (hideAll ps) := by
  intro i e h
  rw [entryAt_hideAll] at h
  cases he : entryAt ps i with
  | none => rw [he] at h; exact absurd h (by simp)
  | some e0 =>
      rw [he] at h
      have h2 : { e0 with «show» := false } = e := by simpa using h
      right
      rw [← h2]

theorem queueFetch_freshOrHidden (cfg : Config) (env : Env) (st : AppState)
    (query : Query) (cur : Bool) (h : (0 : Int) ≤ getPage query)
    (hq : stripPage query = stripPage st.query)
    (hinv : freshOrHidden st.query st.posts) :
    freshOrHidden st.query (queueFetch cfg env st query cur).posts := by
  intro i e he
  by_cases hi : getPage query = i
  · subst hi
    have h3 : e.query = query ∧ e.«show» = decide (getPage st.query ≥ getPage query) := by
      have := queueFetch_entry_eq cfg env st query cur h
      rw [he] at this
      simpa [Prod.ext_iff] using this
    left
    rw [h3.1, hq]
  · rw [queueFetch_entry_other cfg env st query cur i h hi] at he
    exact hinv i e he

theorem queueStep_freshOrHidden (cfg : Config) (env : Env) (obj1 : Query)
    (st : AppState) (o : Int) (hinv : freshOrHidden st.query st.posts) :
    freshOrHidden st.query (queueStep cfg env obj1 st o).posts := by
  unfold queueStep
  dsimp only
  split
  · exact hinv
  · split
    · exact hinv
    · split
      · apply queueFetch_freshOrHidden
        · rw [getPage_qset_page]; omega
        · exact stripPage_qset_page _ _
        · exact hinv
      · exact hinv

theorem foldl_queueStep_freshOrHidden (cfg : Config) (env : Env) (obj1 : Query)
    (l : List Int) (st : AppState) (hinv : freshOrHidden st.query st.posts) :
    freshOrHidden st.query (l.foldl (queueStep cfg env obj1) st).posts := by
  induction l generalizing st with
  | nil => exact hinv
  | cons o rest ih =>
      rw [List.foldl_cons]
      have hstep : freshOrHidden (queueStep cfg env obj1 st o).query
          (queueStep cfg env obj1 st o).posts := by
        rw [queueStep_query]
        exact queueStep_freshOrHidden cfg env obj1 st o hinv
      have := ih (queueStep cfg env obj1 st o) hstep
      rw [queueStep_query] at this
      exact this

theorem queueRun_freshOrHidden (cfg : Config) (env : Env) (st : AppState)
    (l : List Int) (hinv : freshOrHidden st.query st.posts) :
    freshOrHidden st.query (queueRun cfg env st l).posts :=
  foldl_queueStep_freshOrHidden cfg env _ l st hinv

theorem updateQuery_pageFresh (cfg : Config) (env : Env) (st : AppState)
    (taxonomy : Str) (terms : List Scalar) :
    pageFresh (updateQuery cfg env st taxonomy terms) := by
  unfold updateQuery pageFresh
  constructor
  · rw [queueRun_query, getPage_qset_page]
  · have hq := queueRun_query cfg env
      { st with
        query := qset (qset st.query taxonomy (QVal.list terms)) pageKey
          (QVal.scalar (Scalar.num 1)),
        posts := hideAll st.posts } [0, 1]
    rw [hq]
    exact queueRun_freshOrHidden _ _ _ _ (freshOrHidden_hideAll _ _)

theorem filterOp_pageFresh (cfg : Config) (env : Env) (st : AppState)
    (taxonomy : Str) (term : Nat)
    (h : isScalarAt st.query taxonomy = false) :
    pageFresh (filterOp cfg env st taxonomy term) := by
  unfold filterOp
  cases hq : qget st.query taxonomy with
  | none => exact updateQuery_pageFresh _ _ _ _ _
  | some v =>
      cases v with
      | scalar s =>
          unfold isScalarAt at h
          rw [hq] at h
          simp at h
      | list l => exact updateQuery_pageFresh _ _ _ _ _

theorem filterOp_terms (cfg : Config) (env : Env) (st : AppState)
    (taxonomy : Str) (term : Nat) :
    (filterOp cfg env st taxonomy term).terms = st.terms := by
  unfold filterOp
  cases hq : qget st.query taxonomy with
  | none => exact updateQuery_terms _ _ _ _ _
  | some v =>
      cases v with
      | scalar s => rfl
      | list l => exact updateQuery_terms _ _ _ _ _

theorem filterAll_pageFresh (cfg : Config) (env : Env) (st : AppState)
    (slug : Str) (h : (findTax st.terms slug).isSome = true) :
    pageFresh (filterAll cfg env st slug) := by
  unfold filterAll
  cases hf : findTax st.terms slug with
  | none => rw [hf] at h; simp at h
  | some tax => exact updateQuery_pageFresh _ _ _ _ _

theorem click_pageFresh (cfg : Config) (env : Env) (st : AppState)
    (slug : Str) (i : Nat) (hf : (findTax st.terms slug).isSome = true)
    (hs : isScalarAt st.query slug = false) :
    pageFresh (click cfg env st slug i) := by
  unfold click
  by_cases hi : i = 0
  · rw [if_pos hi]
    exact filterAll_pageFresh cfg env st slug hf
  · rw [if_neg hi]
    cases hft : findTax st.terms slug with
    | none => rw [hft] at hf; simp at hf
    | some tax => exact filterOp_pageFresh _ _ _ _ _ hs

theorem resetMut_pageFresh (st : AppState) (slug : Str) :
    pageFresh (resetMut st slug) := by
  constructor
  · exact getPage_qset_page _ _
  · exact freshOrHidden_hideAll _ _

theorem foldl_resetMut_pageFresh (slugs : List Str) (st : AppState)
    (h : pageFresh st) : pageFresh (slugs.foldl resetMut st) := by
  induction slugs generalizing st with
  | nil => exact h
  | cons s rest ih => exact ih (resetMut st s) (resetMut_pageFresh st s)

theorem queueRun_pageFresh (cfg : Config) (env : Env) (st : AppState)
    (l : List Int) (h : pageFresh st) : pageFresh (queueRun cfg env st l) := by
  constructor
  · rw [queueRun_query]; exact h.1
  · rw [queueRun_query]
    exact queueRun_freshOrHidden cfg env st l h.2

theorem foldl_queueRun_pageFresh (cfg : Config) (env : Env)
    (slugs : List Str) (st : AppState) (h : pageFresh st) :
    pageFresh (slugs.foldl (fun s _ => queueRun cfg env s [0, 1]) st) := by
  induction slugs generalizing st with
  | nil => exact h
  | cons s rest ih =>
      rw [List.foldl_cons]
      exact ih _ (queueRun_pageFresh cfg env st [0, 1] h)

theorem reset_pageFresh (cfg : Config) (env : Env) (st : AppState)
    (h : ¬(st.terms = [])) : pageFresh (reset cfg env st) := by
  have h1 : pageFresh ((st.terms.map (fun t => t.slug)).foldl resetMut st) := by
    cases hterms : st.terms with
    | nil => exact absurd hterms h
    | cons t ts =>
        rw [List.map_cons, List.foldl_cons]
        exact foldl_resetMut_pageFresh _ _ (resetMut_pageFresh st t.slug)
  unfold reset
  dsimp only
  exact foldl_queueRun_pageFresh cfg env _ _ h1

/-! ## Lemmas: the taxonomy toggles -/

theorem findTax_updFirstTax (l : List Tax) (slug : Str) (f : Tax → Tax)
    (hf : ∀ t, (f t).slug = t.slug) :
    findTax (updFirstTax l slug f) slug = (findTax l slug).map f := by
  induction l with
  | nil => rfl
  | cons t rest ih =>
      by_cases h : t.slug = slug
      · simp [updFirstTax, findTax, h, hf]
      · simp [updFirstTax, findTax, h, ih]

theorem updFirstTax_twice (l : List Tax) (slug : Str) (f g : Tax → Tax)
    (hf : ∀ t, (f t).slug = t.slug) :
    updFirstTax (updFirstTax l slug f) slug g =
      updFirstTax l slug (fun t => g (f t)) := by
  induction l with
  | nil => rfl
  | cons t rest ih =>
      by_cases h : t.slug = slug
      · simp [updFirstTax, h, hf]
      · simp [updFirstTax, h, ih]

theorem updFirstFilterTerm_flip_flip (fs : List FilterTerm) (i : Nat) :
    updFirstFilterTerm
      (updFirstFilterTerm fs i (fun f => { f with checked := !f.checked })) i
      (fun f => { f with checked := !f.checked }) = fs := by
  induction fs with
  | nil => rfl
  | cons f rest ih =>
      by_cases h : f.id = i
      · cases f with
        | mk fid fact fchk =>
            have hf : fid = i := h
            simp [updFirstFilterTerm, hf, Bool.not_not]
      · simp [updFirstFilterTerm, h, ih]

theorem updFirstTax_congr (l : List Tax) (slug : Str) (f g : Tax → Tax)
    (h : ∀ t, f t = g t) : updFirstTax l slug f = updFirstTax l slug g := by
  induction l with
  | nil => rfl
  | cons t rest ih => by_cases hs : t.slug = slug <;> simp [updFirstTax, hs, h, ih]

theorem allCheckedB_filters (t s : Tax) (h : t.filters = s.filters) :
    allCheckedB t = allCheckedB s := by
  unfold allCheckedB
  rw [h]

theorem clickTermsUpd_eq (terms : List Tax) (slug : Str) (i : Nat) (tax0 : Tax)
    (h : findTax terms slug = some tax0) :
    clickTermsUpd terms slug i = updFirstTax terms slug
      (fun t => setCheckedTax (allCheckedB (flipFilterTax i tax0))
        (flipFilterTax i t)) := by
  unfold clickTermsUpd
  dsimp only
  have h1 : findTax (updFirstTax terms slug (flipFilterTax i)) slug =
      some (flipFilterTax i tax0) := by
    rw [findTax_updFirstTax terms slug (flipFilterTax i) (fun t => rfl), h]
    rfl
  rw [h1]
  exact updFirstTax_twice terms slug (flipFilterTax i)
    (setCheckedTax (allCheckedB (flipFilterTax i tax0))) (fun t => rfl)

theorem clickTermsUpd_twice (terms : List Tax) (slug : Str) (i : Nat)
    (tax0 : Tax) (h : findTax terms slug = some tax0) :
    clickTermsUpd (clickTermsUpd terms slug i) slug i =
      updFirstTax terms slug (setCheckedTax (allCheckedB tax0)) := by
  rw [clickTermsUpd_eq terms slug i tax0 h]
  have hpres : ∀ t : Tax,
      (setCheckedTax (allCheckedB (flipFilterTax i tax0)) (flipFilterTax i t)).slug
        = t.slug := fun t => rfl
  have h2 : findTax (updFirstTax terms slug
        (fun t => setCheckedTax (allCheckedB (flipFilterTax i tax0))
          (flipFilterTax i t))) slug =
      some (setCheckedTax (allCheckedB (flipFilterTax i tax0))
        (flipFilterTax i tax0)) := by
    rw [findTax_updFirstTax terms slug
      (fun t => setCheckedTax (allCheckedB (flipFilterTax i tax0)) (flipFilterTax i t))
      hpres, h]
    rfl
  rw [clickTermsUpd_eq _ slug i _ h2]
  rw [updFirstTax_twice terms slug
    (fun t => setCheckedTax (allCheckedB (flipFilterTax i tax0)) (flipFilterTax i t))
    (fun t => setCheckedTax (allCheckedB (flipFilterTax i
      (setCheckedTax (allCheckedB (flipFilterTax i tax0)) (flipFilterTax i tax0))))
      (flipFilterTax i t)) hpres]
  have hc2 : allCheckedB (flipFilterTax i
      (setCheckedTax (allCheckedB (flipFilterTax i tax0)) (flipFilterTax i tax0)))
      = allCheckedB tax0 := by
    apply allCheckedB_filters
    exact updFirstFilterTerm_flip_flip _ _
  apply updFirstTax_congr
  intro t
  rw [hc2]
  cases t with
  | mk tslug tact tchk tfs =>
      simp [setCheckedTax, flipFilterTax, updFirstFilterTerm_flip_flip]

theorem click_terms_eq (cfg : Config) (env : Env) (st : AppState) (slug : Str)
    (i : Nat) (hi : ¬(i = 0)) (hf : (findTax st.terms slug).isSome = true) :
    (click cfg env st slug i).terms = clickTermsUpd st.terms slug i := by
  unfold click
  rw [if_neg hi]
  cases hft : findTax st.terms slug with
  | none => rw [hft] at hf; simp at hf
  | some tax =>
      dsimp only
      rw [filterOp_terms]

theorem wpQueryStore_errors (st : AppState) (q : Query) :
    (wpQueryStore st q).errors = st.errors := rfl

theorem wpQueryStore_history (st : AppState) (q : Query) :
    (wpQueryStore st q).history = st.history := rfl

theorem wpQueryStore_posts (st : AppState) (q : Query) :
    (wpQueryStore st q).posts = setIdx st.posts (getPage q).toNat
      { posts := some [], query := q,
        «show» := decide (getPage st.query ≥ getPage q),
        headers := none } := rfl

theorem replaceState_errors (cfg : Config) (st : AppState) (q : Query) :
    (replaceState cfg st q).errors = st.errors := rfl

theorem replaceState_history_eq (cfg : Config) (st : AppState) (q : Query) :
    (replaceState cfg st q).history = st.history ++
      [cfg.pathname ++ buildUrlQuery
        (if cfg.filterParams then q.filter (fun kv => elemStr cfg.params kv.1) else q)
        (some cfg.historyOmit) (some cfg.historyMap)] := rfl

theorem process_errors_other (cfg : Config) (st : AppState) (q : Query)
    (hdrs : Headers) :
    (process cfg st JsonVal.other q hdrs).errors =
      st.errors ++ [ErrCall.payload q] := rfl

theorem process_history (cfg : Config) (st : AppState) (d : JsonVal) (q : Query)
    (hdrs : Headers) : (process cfg st d q hdrs).history = st.history := by
  cases d <;> rfl

theorem process_init (cfg : Config) (st : AppState) (d : JsonVal) (q : Query)
    (hdrs : Headers) : (process cfg st d q hdrs).init = true := by
  cases d <;> rfl

/-- When all three skip guards fall through, a `queue` iteration is
exactly the fetch chain on the target query. -/
theorem queueStep_fetch_eq (cfg : Config) (env : Env) (obj1 : Query)
    (st : AppState) (o : Int)
    (hpos : ¬(getPage st.query + o ≤ 0))
    (hskip : skipCacheB st obj1 (getPage st.query + o) = false)
    (hcls : (isCurrent st (getPage st.query + o) ||
             isNext st (getPage st.query + o) ||
             isPrevious st (getPage st.query + o)) = true) :
    queueStep cfg env obj1 st o =
      queueFetch cfg env st
        (qset st.query pageKey (QVal.scalar (Scalar.num (getPage st.query + o))))
        (isCurrent st (getPage st.query + o)) := by
  unfold queueStep
  dsimp only
  rw [if_neg hpos, hskip, hcls]
  simp

/-! ## Claims -/

/-- Claim C3, counterexample: `paginate` does not reject a non-positive
resulting page. From the default state on page 1, a delta of `-1` leaves
`Query.page = 0 < 1`, refuting the invariant that no documented operation
ever leaves `Query.page < 1`. -/
theorem paginate_below_one_cex :
    getPage ((paginate cfgD envOk stD (-1)).query) < 1 := by decide

/-- Claim C3, amended: `paginate` sets `Query.page` to `page + delta`
unconditionally, so `Query.page` can leave the `≥ 1` range; it is only
the fetch queue that skips any target page `≤ 0` as a no-op (no request
is issued and the state is unchanged for that offset). -/
theorem paginate_sets_page_queue_skips_nonpositive (cfg : Config) (env : Env)
    (st : AppState) (change p : Int)
    (h : qget st.query pageKey = some (QVal.scalar (Scalar.num p))) :
    getPage ((paginate cfg env st change).query) = p + change ∧
    (∀ obj1 st2 o, getPage st2.query + o ≤ 0 →
      queueStep cfg env obj1 st2 o = st2) := by
  constructor
  · unfold paginate
    dsimp only
    rw [getPage_eq_of_qget st.query p h]
    cases hentry : entryAt st.posts (p + change) with
    | none => rw [getPage_qset_page]
    | some e =>
        dsimp only
        rw [queueRun_query]
        rw [getPage_qset_page]
  · intro obj1 st2 o hle
    unfold queueStep
    dsimp only
    rw [if_pos hle]

/-- Claim C3, witness: paginating forward by 1 from the default state
leaves `Query.page = 2`. -/
theorem paginate_sets_page_witness :
    getPage ((paginate cfgD envOk stD 1).query) = 1 + 1 :=
  (paginate_sets_page_queue_skips_nonpositive cfgD envOk stD 1 1 (by decide)).1

/-- Claim C6, counterexample: in an initialized state whose posts array is
nonempty but has no entry at `Query.page` (page 1 cached, `Query.page`
= 2), evaluating `loading` dereferences the absent entry — the `TypeError`
branch (modelled as `none`) is reachable. -/
theorem loading_page_past_end_cex : loading stPastEnd = none := by decide

/-- Claim C6, amended: `loading` is `false` when the posts array is empty
or the app is uninitialized (the `&&` chain short-circuits on `init`
before touching the entry); when initialized and an entry exists at
`Query.page` it is "entry has no items AND entry is visible"; but when
initialized with a nonempty array and no entry at `Query.page`, `loading`
dereferences the absent entry (a `TypeError`, modelled `none`) — that
branch is reachable, not impossible. -/
theorem loading_characterisation (st : AppState) (p : Int)
    (h : qget st.query pageKey = some (QVal.scalar (Scalar.num p))) :
    (st.posts.length = 0 → loading st = some false) ∧
    (st.init = false → ¬(st.posts.length = 0) → loading st = some false) ∧
    (st.init = true → ∀ e, entryAt st.posts p = some e →
      loading st = some ((match e.posts with
        | none => true
        | some l => l.isEmpty) && e.«show»)) ∧
    (st.init = true → ¬(st.posts.length = 0) → entryAt st.posts p = none →
      loading st = none) := by
  have hp : getPage st.query = p := getPage_eq_of_qget st.query p h
  refine ⟨?_, ?_, ?_, ?_⟩
  · intro hlen
    unfold loading
    rw [if_pos hlen]
  · intro hinit hlen
    unfold loading
    rw [if_neg hlen, if_pos hinit]
  · intro hinit e he
    have hlen : ¬(st.posts.length = 0) := by
      intro hz
      have hnil : st.posts = [] := List.length_eq_zero.mp hz
      rw [hnil] at he
      unfold entryAt at he
      by_cases h0 : (0 : Int) ≤ p
      · rw [if_pos h0] at he
        cases hpn : p.toNat <;> rw [hpn] at he <;> exact Option.noConfusion he
      · rw [if_neg h0] at he
        exact Option.noConfusion he
    unfold loading
    rw [if_neg hlen, if_neg (by simp [hinit])]
    rw [hp, he]
  · intro hinit hlen hnone
    unfold loading
    rw [if_neg hlen, if_neg (by simp [hinit])]
    rw [hp, hnone]

/-- Claim C6, witness: on the freshly mounted state (empty posts array)
`loading` is `false`. -/
theorem loading_characterisation_witness : loading stD = some false :=
  (loading_characterisation stD 1 (by decide)).1 (by decide)

/-- Claim C9: one `queue` iteration either leaves the stored pagination
headers exactly as they were (any skip, a network failure, or a non-ok
response), or the response at the target URL was ok and the new headers
are exactly the ones parsed from it — headers are parsed and stored only
from an ok response. -/
theorem headers_stored_only_from_ok (cfg : Config) (env : Env) (obj1 : Query)
    (st : AppState) (o : Int) :
    (queueStep cfg env obj1 st o).headers = st.headers ∨
    (∃ t p l b,
      env (wpUrl cfg (qset st.query pageKey
        (QVal.scalar (Scalar.num (getPage st.query + o))))) =
          FetchResp.resp true t p l b ∧
      (queueStep cfg env obj1 st o).headers = parseRespHeaders t p l) := by
  unfold queueStep
  dsimp only
  split
  · left; rfl
  · split
    · left; rfl
    · split
      · exact queueFetch_headers_or cfg env st _ _
      · left; rfl

/-- Claim C8: whenever a `queue` iteration actually performs a fetch (the
target page is positive, not a fresh cache hit, and classified as current,
next or previous), the entry stored at the target page has its
querySnapshot equal to the target query including its page number, and its
visible flag equal to `targetPage ≤ currentPage`. -/
theorem stored_page_snapshot_and_visibility (cfg : Config) (env : Env)
    (obj1 : Query) (st : AppState) (o : Int)
    (hpos : ¬(getPage st.query + o ≤ 0))
    (hskip : skipCacheB st obj1 (getPage st.query + o) = false)
    (hcls : (isCurrent st (getPage st.query + o) ||
             isNext st (getPage st.query + o) ||
             isPrevious st (getPage st.query + o)) = true) :
    (entryAt (queueStep cfg env obj1 st o).posts (getPage st.query + o)).map
        (fun e => (e.query, e.«show»)) =
      some (qset st.query pageKey (QVal.scalar (Scalar.num (getPage st.query + o))),
            decide (getPage st.query + o ≤ getPage st.query)) := by
  rw [queueStep_fetch_eq cfg env obj1 st o hpos hskip hcls]
  have h0 : (0 : Int) ≤ getPage (qset st.query pageKey
      (QVal.scalar (Scalar.num (getPage st.query + o)))) := by
    rw [getPage_qset_page]
    omega
  have hmain := queueFetch_entry_eq cfg env st
    (qset st.query pageKey (QVal.scalar (Scalar.num (getPage st.query + o))))
    (isCurrent st (getPage st.query + o)) h0
  rw [getPage_qset_page] at hmain
  exact hmain

/-- Claim C8, witness (Scenario A's prefetch step): from page 1 with three
total pages known and page 2 uncached, the offset `+1` iteration stores
page 2 with the page-2 query snapshot and `visible = false`. -/
theorem stored_page_snapshot_witness :
    (entryAt (queueStep cfgD envOk (stripPage stPaged.query) stPaged 1).posts
        (getPage stPaged.query + 1)).map (fun e => (e.query, e.«show»)) =
      some (qset stPaged.query pageKey
              (QVal.scalar (Scalar.num (getPage stPaged.query + 1))),
            decide (getPage stPaged.query + 1 ≤ getPage stPaged.query)) :=
  stored_page_snapshot_and_visibility cfgD envOk (stripPage stPaged.query)
    stPaged 1 (by decide) (by decide) (by decide)

/-- Claim C2, counterexample: when the current-page request answers
non-ok with a JSON (non-array) body, the address bar IS updated for the
failing query — `replaceState` runs for the current page regardless of
response status, refuting "the address bar is not updated for that
query". From the default state, the history log grows by one entry. -/
theorem current_failure_updates_address_bar_cex :
    (queueStep cfgD envErr (stripPage stD.query) stD 0).history =
      stD.history ++ [cfgD.pathname] := by decide

/-- Claim C2, amended: when the HTTP request for the current page
(`targetPage = Query.page`) answers non-ok with a body that parses as
JSON but is not an array (the usual REST error object), the affected page
is stored with no items (its `posts` field becomes the non-array `false`
marker, which every consumer reads as empty), the error collaborator is
invoked exactly once with the failing query, the stored pagination
headers are unchanged, `init` becomes true — and the address bar IS
updated for that query. -/
theorem current_page_failure_effects (cfg : Config) (env : Env)
    (st : AppState) (p : Int) (th ph lh : Option Str)
    (h1 : qget st.query pageKey = some (QVal.scalar (Scalar.num p)))
    (h2 : 1 ≤ p)
    (h3 : skipCacheB st (stripPage st.query) p = false)
    (h4 : env (wpUrl cfg (qset st.query pageKey (QVal.scalar (Scalar.num p)))) =
      FetchResp.resp false th ph lh (some JsonVal.other)) :
    (queueStep cfg env (stripPage st.query) st 0).errors =
      st.errors ++ [ErrCall.payload
        (qset st.query pageKey (QVal.scalar (Scalar.num p)))] ∧
    (queueStep cfg env (stripPage st.query) st 0).history =
      st.history ++ [cfg.pathname ++ buildUrlQuery
        (if cfg.filterParams
         then (qset st.query pageKey (QVal.scalar (Scalar.num p))).filter
           (fun kv => elemStr cfg.params kv.1)
         else qset st.query pageKey (QVal.scalar (Scalar.num p)))
        (some cfg.historyOmit) (some cfg.historyMap)] ∧
    (entryAt (queueStep cfg env (stripPage st.query) st 0).posts p).map
        (fun e => e.posts) = some none ∧
    (queueStep cfg env (stripPage st.query) st 0).headers = st.headers ∧
    (queueStep cfg env (stripPage st.query) st 0).init = true := by
  have hp : getPage st.query = p := getPage_eq_of_qget st.query p h1
  have htp : getPage st.query + 0 = p := by omega
  have hcur : isCurrent st (getPage st.query + 0) = true := by
    unfold isCurrent
    simp [htp, hp]
  have hred := queueStep_fetch_eq cfg env (stripPage st.query) st 0
    (by omega) (by rw [htp]; exact h3) (by rw [hcur]; simp)
  rw [htp] at hred
  rw [htp] at hcur
  have hbranch : queueFetch cfg env st
      (qset st.query pageKey (QVal.scalar (Scalar.num p))) true =
      process cfg
        (replaceState cfg
          (wpQueryStore st (qset st.query pageKey (QVal.scalar (Scalar.num p))))
          (qset st.query pageKey (QVal.scalar (Scalar.num p))))
        JsonVal.other (qset st.query pageKey (QVal.scalar (Scalar.num p)))
        (replaceState cfg
          (wpQueryStore st (qset st.query pageKey (QVal.scalar (Scalar.num p))))
          (qset st.query pageKey (QVal.scalar (Scalar.num p)))).headers := by
    unfold queueFetch
    rw [h4]
    rfl
  rw [hred, hcur, hbranch]
  have hq : getPage (qset st.query pageKey (QVal.scalar (Scalar.num p))) = p :=
    getPage_qset_page st.query p
  refine ⟨?_, ?_, ?_, ?_, ?_⟩
  · rw [process_errors_other, replaceState_errors, wpQueryStore_errors]
  · rw [process_history, replaceState_history_eq, wpQueryStore_history]
  · rw [process_posts]
    rw [hq]
    rw [entryAt_updEntryI_self _ _ _ (show (0 : Int) ≤ p by omega)]
    rw [replaceState_posts]
    rw [wpQueryStore_posts]
    rw [show (getPage (qset st.query pageKey
      (QVal.scalar (Scalar.num p)))).toNat = p.toNat from by rw [hq]]
    rw [entryAt_setIdx_self st.posts p _ (show (0 : Int) ≤ p by omega)]
    rfl
  · rw [process_headers, replaceState_headers, wpQueryStore_headers]
  · rw [process_init]

/-- Claim C2, witness: the amended effects at the default state against a
network answering a non-ok JSON error body — the error collaborator log
grows by exactly the failing page-1 query. -/
theorem current_page_failure_witness :
    (queueStep cfgD envErr (stripPage stD.query) stD 0).errors =
      stD.errors ++ [ErrCall.payload
        (qset stD.query pageKey (QVal.scalar (Scalar.num 1)))] :=
  (current_page_failure_effects cfgD envErr stD 1 none none none
    (by decide) (by decide) (by decide) rfl).1

/-- Claim C4, counterexample: after toggling a `colors` filter on a state
that caches a page 3 from an earlier filter generation, the Page Cache
still contains that entry, and its page-stripped querySnapshot differs
from the new filter state — the cache is hidden and lazily overwritten,
never cleared. -/
theorem stale_entry_survives_toggle_cex :
    (entryAt (click cfgD envOk stStale colorsKey 1).posts 3).map
      (fun e => decide (stripPage e.query =
        stripPage (click cfgD envOk stStale colorsKey 1).query)) =
    some false := by decide

/-- Claim C4, amended: after `toggleFilter` (`click`) or `toggleAll`
(`filterAll`) on an existing taxonomy whose query value is not a scalar,
and after `reset` when at least one taxonomy is present, `Query.page = 1`
and every entry in the Page Cache either has the new page-stripped filter
state as its querySnapshot or is marked not visible; entries cached under
an earlier filter state survive, but hidden. -/
theorem toggles_reset_page_and_hide_stale (cfg : Config) (env : Env)
    (st : AppState) (slug : Str) (i : Nat)
    (hf : (findTax st.terms slug).isSome = true)
    (hs : isScalarAt st.query slug = false) :
    pageFresh (click cfg env st slug i) ∧
    pageFresh (filterAll cfg env st slug) ∧
    (¬(st.terms = []) → pageFresh (reset cfg env st)) :=
  ⟨click_pageFresh cfg env st slug i hf hs,
   filterAll_pageFresh cfg env st slug hf,
   fun h => reset_pageFresh cfg env st h⟩

/-- Claim C4, witness: toggling `colors[1]` on the stale-cache state
leaves `Query.page = 1`. -/
theorem toggles_reset_page_witness :
    getPage (click cfgD envOk stStale colorsKey 1).query = 1 :=
  (toggles_reset_page_and_hide_stale cfgD envOk stStale colorsKey 1
    (by decide) (by decide)).1.1

/-- Claim C5, counterexample: unchecking the only applied `colors` filter
leaves the `colors` key in the Query bound to an empty list — the key is
not removed. -/
theorem empty_filter_list_kept_cex :
    qget ((click cfgD envOk stColors colorsKey 1).query) colorsKey =
      some (QVal.list []) := by decide

/-- Claim C5, amended: when a toggle (`click` on a nonzero filter id of an
existing taxonomy, not named `page`) leaves that taxonomy with zero
checked filters, the taxonomy key remains in the Query bound to the empty
list; it is not removed (the empty list only disappears later, in the
encoded URL string, because `buildUrlQuery` drops empty-array keys). -/
theorem empty_filter_list_kept (cfg : Config) (env : Env) (st : AppState)
    (slug : Str) (i : Nat) (l : List Scalar)
    (hi : ¬(i = 0)) (hslug : ¬(pageKey = slug))
    (hf : (findTax st.terms slug).isSome = true)
    (hq : qget st.query slug = some (QVal.list l))
    (hmem : Scalar.num (i : Int) ∈ l)
    (hempty : l.filter (fun a => decide (¬(a = Scalar.num (i : Int)))) = []) :
    qget ((click cfg env st slug i).query) slug = some (QVal.list []) := by
  unfold click
  rw [if_neg hi]
  cases hft : findTax st.terms slug with
  | none => rw [hft] at hf; simp at hf
  | some tax =>
      dsimp only
      unfold filterOp
      have hq1 : qget ({ st with terms := clickTermsUpd st.terms slug i } :
          AppState).query slug = some (QVal.list l) := hq
      rw [hq1]
      dsimp only
      rw [if_pos (by simpa using hmem)]
      rw [hempty]
      rw [updateQuery_query]
      rw [qget_qset_ne _ _ _ _ hslug]
      exact qget_qset_self _ _ _

/-- Claim C5, witness: the amended behaviour at the concrete one-filter
state — after the toggle the `colors` key holds `[]`. -/
theorem empty_filter_list_kept_witness :
    qget ((click cfgD envErr stColors colorsKey 1).query) colorsKey =
      some (QVal.list []) :=
  empty_filter_list_kept cfgD envErr stColors colorsKey 1 [Scalar.num 1]
    (by decide) (by decide) (by decide) (by decide) (by decide) (by decide)

/-- Claim C7: applying `click` (the toggleFilter operation) twice with the
same nonzero filter id on an existing taxonomy restores every filter's
original checked state, and the taxonomy's stored `checked` ends equal to
the original derived all-checked value. -/
theorem double_toggle_restores (cfg : Config) (env : Env) (st : AppState)
    (slug : Str) (i : Nat) (tax0 : Tax)
    (hi : ¬(i = 0)) (hf : findTax st.terms slug = some tax0) :
    (findTax (click cfg env (click cfg env st slug i) slug i).terms slug).map
        (fun t => t.filters) =
      (findTax st.terms slug).map (fun t => t.filters) ∧
    (findTax (click cfg env (click cfg env st slug i) slug i).terms slug).bind
        (fun t => t.checked) =
      (findTax st.terms slug).map allCheckedB := by
  have h1 : (click cfg env st slug i).terms = clickTermsUpd st.terms slug i :=
    click_terms_eq cfg env st slug i hi (by rw [hf]; rfl)
  have h2 : findTax (clickTermsUpd st.terms slug i) slug =
      some (setCheckedTax (allCheckedB (flipFilterTax i tax0))
        (flipFilterTax i tax0)) := by
    rw [clickTermsUpd_eq st.terms slug i tax0 hf]
    rw [findTax_updFirstTax st.terms slug
      (fun t => setCheckedTax (allCheckedB (flipFilterTax i tax0))
        (flipFilterTax i t)) (fun t => rfl), hf]
    rfl
  have h3 : (click cfg env (click cfg env st slug i) slug i).terms =
      clickTermsUpd (clickTermsUpd st.terms slug i) slug i := by
    have := click_terms_eq cfg env (click cfg env st slug i) slug i hi
      (by rw [h1, h2]; rfl)
    rw [h1] at this
    exact this
  rw [h3]
  rw [clickTermsUpd_twice st.terms slug i tax0 hf]
  rw [findTax_updFirstTax st.terms slug (setCheckedTax (allCheckedB tax0))
    (fun t => rfl), hf]
  exact ⟨rfl, rfl⟩

/-- Claim C7, witness: double-clicking filter 2 of the fresh `colors`
taxonomy restores the filter states and stores the derived (false)
all-checked value. -/
theorem double_toggle_restores_witness :
    (findTax (click cfgD envOk (click cfgD envOk stStale colorsKey 2)
        colorsKey 2).terms colorsKey).map (fun t => t.filters) =
      (findTax stStale.terms colorsKey).map (fun t => t.filters) ∧
    (findTax (click cfgD envOk (click cfgD envOk stStale colorsKey 2)
        colorsKey 2).terms colorsKey).bind (fun t => t.checked) =
      (findTax stStale.terms colorsKey).map allCheckedB :=
  double_toggle_restores cfgD envOk stStale colorsKey 2 taxColors
    (by decide) (by decide)

theorem truthyB_encodePiece_empty (omitKs : Option (List Str))
    (rev : Option (List (Str × Str))) (kv : Str × QVal)
    (h : kv.2 = QVal.list []) :
    truthyB (encodePiece omitKs rev kv) = false := by
  unfold encodePiece
  dsimp only
  split
  · rfl
  · rw [h]
    simp [truthyB, joinSep]

theorem truthyB_encodePiece_omitted (omitKs : Option (List Str))
    (rev : Option (List (Str × Str))) (kv : Str × QVal)
    (h : match omitKs with
         | some os => elemStr os kv.1 = true
         | none => False) :
    truthyB (encodePiece omitKs rev kv) = false := by
  unfold encodePiece
  cases omitKs with
  | none => exact h.elim
  | some os =>
      have h2 : elemStr os kv.1 = true := h
      simp [h2, truthyB]

theorem filter_drops_empty_lists (query : Query) (omitKs : Option (List Str))
    (rev : Option (List (Str × Str))) :
    (query.map (encodePiece omitKs rev)).filter truthyB =
      ((query.filter (fun kv => decide (¬(kv.2 = QVal.list [])))).map
        (encodePiece omitKs rev)).filter truthyB := by
  induction query with
  | nil => rfl
  | cons kv rest ih =>
      by_cases h : kv.2 = QVal.list []
      · simp only [List.map_cons, List.filter_cons]
        rw [truthyB_encodePiece_empty omitKs rev kv h]
        simp [h, ih]
      · simp only [List.map_cons, List.filter_cons]
        by_cases ht : truthyB (encodePiece omitKs rev kv) = true <;>
          simp [ht, h, ih]

/-- Claim C10: `buildUrlQuery` omits every key whose value is the empty
list — the produced string is the one built from the query with those
keys dropped — and a query all of whose keys are either in the omit list
or empty-list valued encodes to the empty string, not to `"?"`. -/
theorem empty_list_keys_omitted (query : Query) (omitKs : Option (List Str))
    (rev : Option (List (Str × Str))) :
    buildUrlQuery query omitKs rev =
      buildUrlQuery (query.filter (fun kv => decide (¬(kv.2 = QVal.list []))))
        omitKs rev ∧
    ((∀ kv ∈ query, (match omitKs with
        | some os => elemStr os kv.1 = true
        | none => False) ∨ kv.2 = QVal.list []) →
      buildUrlQuery query omitKs rev = []) := by
  constructor
  · unfold buildUrlQuery
    rw [filter_drops_empty_lists]
  · intro hall
    unfold buildUrlQuery
    have hnil : (query.map (encodePiece omitKs rev)).filter truthyB = [] := by
      induction query with
      | nil => rfl
      | cons kv rest ih =>
          simp only [List.map_cons, List.filter_cons]
          have hfalse : truthyB (encodePiece omitKs rev kv) = false := by
            cases hall kv (List.mem_cons_self kv rest) with
            | inl homit => exact truthyB_encodePiece_omitted omitKs rev kv homit
            | inr hemp => exact truthyB_encodePiece_empty omitKs rev kv hemp
          rw [hfalse]
          simp only [Bool.false_eq_true, if_false]
          exact ih (fun x hx => hall x (List.mem_cons_of_mem kv hx))
    rw [hnil]
    rfl

/-- Claim C10, witness: a query whose only non-omitted key holds an empty
list encodes to the empty string. -/
theorem empty_list_keys_omitted_witness :
    buildUrlQuery [(colorsKey, QVal.list []),
      (pageKey, QVal.scalar (Scalar.num 1))] (some [pageKey]) none = [] :=
  (empty_list_keys_omitted [(colorsKey, QVal.list []),
      (pageKey, QVal.scalar (Scalar.num 1))] (some [pageKey]) none).2
    (by decide)

/-! ## Lemmas: decimal printing inverts decimal parsing -/

theorem isDigit_digitChar (d : Nat) (h : d < 10) :
    (Nat.digitChar d).isDigit = true := by
  interval_cases d <;> decide

theorem digitVal_digitChar (d : Nat) (h : d < 10) :
    digitVal (Nat.digitChar d) = d := by
  interval_cases d <;> decide

theorem natReprAux_all_digits (fuel n : Nat) :
    (natReprAux fuel n).all Char.isDigit = true := by
  induction fuel generalizing n with
  | zero => rfl
  | succ fuel ih =>
      unfold natReprAux
      by_cases h : n = 0
      · rw [if_pos h]; rfl
      · rw [if_neg h]
        rw [List.all_append]
        rw [ih (n / 10)]
        simp [isDigit_digitChar (n % 10) (Nat.mod_lt n (by omega))]

theorem natReprAux_foldl (fuel : Nat) :
    ∀ n acc, n ≤ fuel →
      (natReprAux fuel n).foldl (fun a c => 10 * a + digitVal c) acc =
        acc * 10 ^ (natReprAux fuel n).length + n := by
  induction fuel with
  | zero =>
      intro n acc h
      have hn : n = 0 := by omega
      subst hn
      simp [natReprAux]
  | succ fuel ih =>
      intro n acc h
      unfold natReprAux
      by_cases h0 : n = 0
      · rw [if_pos h0]
        subst h0
        simp
      · rw [if_neg h0]
        rw [List.foldl_append]
        have hdiv : n / 10 ≤ fuel := by omega
        rw [ih (n / 10) acc hdiv]
        simp only [List.foldl_cons, List.foldl_nil, List.length_append,
          List.length_cons, List.length_nil]
        rw [digitVal_digitChar (n % 10) (Nat.mod_lt n (by omega))]
        rw [pow_succ]
        have := Nat.div_add_mod n 10
        ring_nf
        omega

theorem natReprAux_ne_nil (fuel n : Nat) (h0 : ¬(n = 0)) (h : n ≤ fuel) :
    ¬(natReprAux fuel n = []) := by
  cases fuel with
  | zero => omega
  | succ fuel =>
      unfold natReprAux
      rw [if_neg h0]
      simp

theorem digitsVal?_natRepr (n : Nat) : digitsVal? (natRepr n) = some n := by
  by_cases h0 : n = 0
  · subst h0
    decide
  · unfold natRepr
    rw [if_neg h0]
    unfold digitsVal?
    rw [if_neg (natReprAux_ne_nil n n h0 (le_refl n))]
    rw [if_pos (natReprAux_all_digits n n)]
    rw [natReprAux_foldl n n 0 (le_refl n)]
    simp

theorem natRepr_all_digits (n : Nat) (c : Char) (hc : c ∈ natRepr n) :
    c.isDigit = true := by
  unfold natRepr at hc
  by_cases h0 : n = 0
  · rw [if_pos h0] at hc
    simp only [List.mem_singleton] at hc
    subst hc
    decide
  · rw [if_neg h0] at hc
    have := natReprAux_all_digits n n
    rw [List.all_eq_true] at this
    exact this c hc

theorem natRepr_ne_nil (n : Nat) : ¬(natRepr n = []) := by
  unfold natRepr
  by_cases h0 : n = 0
  · rw [if_pos h0]; simp
  · rw [if_neg h0]
    exact natReprAux_ne_nil n n h0 (le_refl n)

theorem digit_not_special (c : Char) (h : c.isDigit = true) :
    ¬(c = '&') ∧ ¬(c = '=') ∧ ¬(c = '[') ∧ ¬(c = '-') ∧ ¬(c = '?') := by
  refine ⟨?_, ?_, ?_, ?_, ?_⟩ <;>
    (intro he; rw [he] at h; exact absurd h (by decide))

theorem jsToNum?_intRepr (i : Int) : jsToNum? (intRepr i) = some i := by
  cases i with
  | ofNat n =>
      show jsToNum? (natRepr n) = some (Int.ofNat n)
      cases hs : natRepr n with
      | nil => exact absurd hs (natRepr_ne_nil n)
      | cons c rest =>
          unfold jsToNum?
          dsimp only
          have hc : c.isDigit = true :=
            natRepr_all_digits n c (by rw [hs]; exact List.mem_cons_self c rest)
          rw [if_neg (digit_not_special c hc).2.2.2.1]
          rw [← hs, digitsVal?_natRepr]
          rfl
  | negSucc n =>
      show jsToNum? (('-' : Char) :: natRepr (n + 1)) = some (Int.negSucc n)
      unfold jsToNum?
      dsimp only
      rw [if_pos rfl]
      rw [digitsVal?_natRepr]
      show some (-(((n + 1 : Nat) : Int))) = some (Int.negSucc n)
      rw [Int.negSucc_eq]
      simp

theorem intRepr_digit_or_minus (i : Int) (c : Char) (hc : c ∈ intRepr i) :
    c.isDigit = true ∨ c = '-' := by
  cases i with
  | ofNat n => exact Or.inl (natRepr_all_digits n c hc)
  | negSucc n =>
      cases hc with
      | head => exact Or.inr rfl
      | tail _ hmem => exact Or.inl (natRepr_all_digits (n + 1) c hmem)

theorem intRepr_not_special (i : Int) (c : Char) (hc : c ∈ intRepr i) :
    ¬(c = '&') ∧ ¬(c = '=') := by
  cases intRepr_digit_or_minus i c hc with
  | inl hd => exact ⟨(digit_not_special c hd).1, (digit_not_special c hd).2.1⟩
  | inr hm => subst hm; exact ⟨by decide, by decide⟩

theorem convVal_intRepr (i : Int) : convVal (intRepr i) = Scalar.num i := by
  unfold convVal
  rw [jsToNum?_intRepr]

/-! ## Lemmas: splitting undoes joining -/

theorem splitOnSep_cons (sep c : Char) (cs : Str) :
    splitOnSep sep (c :: cs) =
      if c = sep then [] :: splitOnSep sep cs
      else
        match splitOnSep sep cs with
        | [] => [[c]]
        | p :: ps => (c :: p) :: ps := rfl

theorem splitOnSep_no_sep (sep : Char) (s : Str) (h : sep ∉ s) :
    splitOnSep sep s = [s] := by
  induction s with
  | nil => rfl
  | cons c cs ih =>
      rw [splitOnSep_cons]
      rw [if_neg (fun he => h (by rw [he]; exact List.mem_cons_self sep cs))]
      rw [ih (fun hm => h (List.mem_cons_of_mem c hm))]

theorem splitOnSep_append (sep : Char) (x t : Str) (h : sep ∉ x) :
    splitOnSep sep (x ++ sep :: t) = x :: splitOnSep sep t := by
  induction x with
  | nil =>
      show splitOnSep sep (sep :: t) = [] :: splitOnSep sep t
      rw [splitOnSep_cons, if_pos rfl]
  | cons c cs ih =>
      show splitOnSep sep (c :: (cs ++ sep :: t)) = (c :: cs) :: splitOnSep sep t
      rw [splitOnSep_cons]
      rw [if_neg (fun he => h (by rw [he]; exact List.mem_cons_self sep cs))]
      rw [ih (fun hm => h (List.mem_cons_of_mem c hm))]

theorem joinSep_cons (s : Str) (x : Str) (xs : List Str) (h : ¬(xs = [])) :
    joinSep s (x :: xs) = x ++ s ++ joinSep s xs := by
  cases xs with
  | nil => exact absurd rfl h
  | cons y ys => rfl

theorem splitOnSep_joinSep (sep : Char) (ps : List Str) (hne : ¬(ps = []))
    (h : ∀ p ∈ ps, sep ∉ p) :
    splitOnSep sep (joinSep [sep] ps) = ps := by
  induction ps with
  | nil => exact absurd rfl hne
  | cons x xs ih =>
      cases xs with
      | nil => exact splitOnSep_no_sep sep x (h x (List.mem_cons_self x []))
      | cons y ys =>
          rw [joinSep_cons [sep] x (y :: ys) (by simp)]
          rw [List.append_assoc]
          rw [show ([sep] ++ joinSep [sep] (y :: ys)) =
            sep :: joinSep [sep] (y :: ys) from rfl]
          rw [splitOnSep_append sep x _ (h x (List.mem_cons_self x (y :: ys)))]
          rw [ih (by simp) (fun p hp => h p (List.mem_cons_of_mem x hp))]

theorem joinSep_append (s : Str) (xs ys : List Str) (hxs : ¬(xs = []))
    (hys : ¬(ys = [])) :
    joinSep s (xs ++ ys) = joinSep s xs ++ s ++ joinSep s ys := by
  induction xs with
  | nil => exact absurd rfl hxs
  | cons x xs ih =>
      cases xs with
      | nil =>
          rw [show (([x] : List Str) ++ ys) = x :: ys from rfl]
          rw [joinSep_cons s x ys hys]
          rfl
      | cons x2 xs2 =>
          rw [show ((x :: x2 :: xs2 : List Str) ++ ys) =
            x :: ((x2 :: xs2) ++ ys) from rfl]
          rw [joinSep_cons s x ((x2 :: xs2) ++ ys) (by simp)]
          rw [ih (by simp)]
          rw [joinSep_cons s x (x2 :: xs2) (by simp)]
          simp [List.append_assoc]

theorem splitFirst_append (c : Char) (pre suf : Str) (h : c ∉ pre) :
    splitFirst c (pre ++ c :: suf) = (pre, suf) := by
  induction pre with
  | nil =>
      show splitFirst c (c :: suf) = ([], suf)
      unfold splitFirst
      rw [if_pos rfl]
  | cons x xs ih =>
      show splitFirst c (x :: (xs ++ c :: suf)) = (x :: xs, suf)
      unfold splitFirst
      rw [if_neg (fun he => h (by rw [← he]; exact List.mem_cons_self x xs))]
      rw [ih (fun hm => h (List.mem_cons_of_mem x hm))]

theorem replaceFirst_brackets (k : Str) (h : ('[' : Char) ∉ k) :
    replaceFirst [('[' : Char), (']' : Char)]
      (k ++ [('[' : Char), (']' : Char)]) = k := by
  induction k with
  | nil => decide
  | cons c cs ih =>
      show replaceFirst [('[' : Char), (']' : Char)]
        (c :: (cs ++ [('[' : Char), (']' : Char)])) = c :: cs
      unfold replaceFirst
      rw [if_neg ?hneg]
      case hneg =>
        intro hand
        have hp := hand.2
        rw [List.isPrefixOf_iff_prefix] at hp
        have hc : ('[' : Char) = c := (List.cons_prefix_cons.mp hp).1
        exact h (by rw [← hc]; exact List.mem_cons_self _ cs)
      rw [ih (fun hm => h (List.mem_cons_of_mem c hm))]

theorem getAllParams_append (pairs1 pairs2 : List (Str × Str)) (key : Str) :
    getAllParams (pairs1 ++ pairs2) key =
      getAllParams pairs1 key ++ getAllParams pairs2 key := by
  unfold getAllParams
  rw [List.filter_append, List.map_append]

/-! ## Lemmas: the encoded string, token by token -/

theorem isNumListB_spec (v : QVal) (h : isNumListB v = true) :
    ∃ l, v = QVal.list l ∧ ¬(l = []) ∧ ∀ a ∈ l, ∃ n : Int, a = Scalar.num n := by
  cases v with
  | scalar s => exact absurd h (by simp [isNumListB])
  | list l =>
      refine ⟨l, rfl, ?_, ?_⟩
      · unfold isNumListB at h
        rw [Bool.and_eq_true] at h
        simpa using h.1
      · intro a ha
        unfold isNumListB at h
        rw [Bool.and_eq_true] at h
        have := (List.all_eq_true.mp h.2) a ha
        cases a with
        | num n => exact ⟨n, rfl⟩
        | str s => exact absurd this (by simp)

theorem encodePiece_noconf (kv : Str × QVal) :
    encodePiece (some []) (some []) kv =
      some (joinSep [('&' : Char)] (chunkStrs kv)) := by
  cases hkv : kv.2 with
  | scalar v => simp [encodePiece, chunkStrs, elemStr, assoc?, hkv, joinSep]
  | list l => simp [encodePiece, chunkStrs, elemStr, assoc?, hkv]

theorem chunkStrs_ne_nil (kv : Str × QVal) (h : isNumListB kv.2 = true) :
    ¬(chunkStrs kv = []) := by
  obtain ⟨l, hv, hl, _⟩ := isNumListB_spec kv.2 h
  unfold chunkStrs
  rw [hv]
  dsimp only
  simpa using hl

theorem chunkStrs_no_amp (kv : Str × QVal) (h : isNumListB kv.2 = true)
    (hk : ∀ c ∈ kv.1, ¬(c = '&') ∧ ¬(c = '=') ∧ ¬(c = '[')) :
    ∀ t ∈ chunkStrs kv, ('&' : Char) ∉ t := by
  obtain ⟨l, hv, _, hnums⟩ := isNumListB_spec kv.2 h
  unfold chunkStrs
  rw [hv]
  dsimp only
  intro t ht
  rw [List.mem_map] at ht
  obtain ⟨a, ha, hta⟩ := ht
  obtain ⟨n, hn⟩ := hnums a ha
  subst hta
  intro hmem
  rw [List.mem_append, List.mem_append] at hmem
  rcases hmem with (hmem | hmem) | hmem
  · exact (hk _ hmem).1 rfl
  · simp at hmem
  · rw [hn] at hmem
    exact (intRepr_not_special n '&' hmem).1 rfl

theorem joinSep_ne_nil (s : Str) (x : Str) (xs : List Str) (hx : ¬(x = [])) :
    ¬(joinSep s (x :: xs) = []) := by
  cases xs with
  | nil => exact hx
  | cons y ys =>
      rw [joinSep_cons s x (y :: ys) (by simp)]
      simp [hx]

theorem joinSep_chunk_ne_nil (kv : Str × QVal) (h : isNumListB kv.2 = true) :
    ¬(joinSep [('&' : Char)] (chunkStrs kv) = []) := by
  obtain ⟨l, hv, hl, _⟩ := isNumListB_spec kv.2 h
  unfold chunkStrs
  rw [hv]
  dsimp only
  cases l with
  | nil => exact absurd rfl hl
  | cons a l2 =>
      rw [List.map_cons]
      apply joinSep_ne_nil
      simp

theorem encode_filter_keeps_all (q : Query)
    (hvals : ∀ kv ∈ q, isNumListB kv.2 = true) :
    ((q.map (encodePiece (some []) (some []))).filter truthyB).map
        (fun x => x.getD []) =
      q.map (fun kv => joinSep [('&' : Char)] (chunkStrs kv)) := by
  induction q with
  | nil => rfl
  | cons kv rest ih =>
      rw [List.map_cons, List.filter_cons]
      rw [encodePiece_noconf kv]
      have hne := joinSep_chunk_ne_nil kv (hvals kv (List.mem_cons_self kv rest))
      rw [show truthyB (some (joinSep [('&' : Char)] (chunkStrs kv))) = true
        from by simp [truthyB, hne]]
      rw [if_pos rfl]
      rw [List.map_cons]
      rw [ih (fun x hx => hvals x (List.mem_cons_of_mem kv hx))]
      rfl

theorem buildUrlQuery_norm (q : Query)
    (hvals : ∀ kv ∈ q, isNumListB kv.2 = true) (hne : ¬(q = [])) :
    buildUrlQuery q (some []) (some []) =
      ('?' : Char) :: joinSep [('&' : Char)]
        (q.map (fun kv => joinSep [('&' : Char)] (chunkStrs kv))) := by
  unfold buildUrlQuery
  rw [encode_filter_keeps_all q hvals]
  cases q with
  | nil => exact absurd rfl hne
  | cons kv rest =>
      rw [List.map_cons]
      rw [if_neg (joinSep_ne_nil _ _ _
        (joinSep_chunk_ne_nil kv (hvals kv (List.mem_cons_self kv rest))))]

theorem joinSep_map_flatChunks (q : Query)
    (hvals : ∀ kv ∈ q, isNumListB kv.2 = true) (hne : ¬(q = [])) :
    joinSep [('&' : Char)] (q.map (fun kv => joinSep [('&' : Char)] (chunkStrs kv))) =
      joinSep [('&' : Char)] (flatChunks q) := by
  induction q with
  | nil => rfl
  | cons kv rest ih =>
      cases hrest : rest with
      | nil =>
          show joinSep [('&' : Char)] [joinSep [('&' : Char)] (chunkStrs kv)] =
            joinSep [('&' : Char)] (chunkStrs kv ++ flatChunks [])
          rw [show flatChunks [] = [] from rfl, List.append_nil]
          rfl
      | cons kv2 rest2 =>
          rw [← hrest]
          rw [List.map_cons]
          have hrne : ¬(rest.map (fun kv => joinSep [('&' : Char)] (chunkStrs kv)) = []) := by
            rw [hrest]; simp
          rw [joinSep_cons [('&' : Char)] _ _ hrne]
          rw [ih (fun x hx => hvals x (List.mem_cons_of_mem kv hx)) (by rw [hrest]; simp)]
          show _ = joinSep [('&' : Char)] (chunkStrs kv ++ flatChunks rest)
          rw [joinSep_append [('&' : Char)] (chunkStrs kv) (flatChunks rest)
            (chunkStrs_ne_nil kv (hvals kv (List.mem_cons_self kv rest)))
            ?frest]
          case frest =>
            rw [hrest]
            show ¬(chunkStrs kv2 ++ flatChunks rest2 = [])
            have := chunkStrs_ne_nil kv2 (hvals kv2 (by rw [hrest]; exact List.mem_cons_of_mem kv (List.mem_cons_self kv2 rest2)))
            simp [this]

theorem chunkStrs_tokens_ne_nil (kv : Str × QVal) (h : isNumListB kv.2 = true) :
    ∀ t ∈ chunkStrs kv, ¬(t = []) := by
  obtain ⟨l, hv, _, _⟩ := isNumListB_spec kv.2 h
  unfold chunkStrs
  rw [hv]
  dsimp only
  intro t ht
  rw [List.mem_map] at ht
  obtain ⟨a, _, hta⟩ := ht
  subst hta
  simp

theorem flatChunks_no_amp (q : Query)
    (hvals : ∀ kv ∈ q, isNumListB kv.2 = true)
    (hkeys : ∀ kv ∈ q, ∀ c ∈ kv.1, ¬(c = '&') ∧ ¬(c = '=') ∧ ¬(c = '[')) :
    ∀ t ∈ flatChunks q, ('&' : Char) ∉ t := by
  induction q with
  | nil => intro t ht; exact absurd ht (by simp [flatChunks])
  | cons kv rest ih =>
      intro t ht
      rw [show flatChunks (kv :: rest) = chunkStrs kv ++ flatChunks rest from rfl,
        List.mem_append] at ht
      cases ht with
      | inl hin =>
          exact chunkStrs_no_amp kv (hvals kv (List.mem_cons_self kv rest))
            (hkeys kv (List.mem_cons_self kv rest)) t hin
      | inr hin =>
          exact ih (fun x hx => hvals x (List.mem_cons_of_mem kv hx))
            (fun x hx => hkeys x (List.mem_cons_of_mem kv hx)) t hin

theorem flatChunks_tokens_ne_nil (q : Query)
    (hvals : ∀ kv ∈ q, isNumListB kv.2 = true) :
    ∀ t ∈ flatChunks q, ¬(t = []) := by
  induction q with
  | nil => intro t ht; exact absurd ht (by simp [flatChunks])
  | cons kv rest ih =>
      intro t ht
      rw [show flatChunks (kv :: rest) = chunkStrs kv ++ flatChunks rest from rfl,
        List.mem_append] at ht
      cases ht with
      | inl hin =>
          exact chunkStrs_tokens_ne_nil kv (hvals kv (List.mem_cons_self kv rest)) t hin
      | inr hin =>
          exact ih (fun x hx => hvals x (List.mem_cons_of_mem kv hx)) t hin

theorem flatChunks_ne_nil (q : Query) (hne : ¬(q = []))
    (hvals : ∀ kv ∈ q, isNumListB kv.2 = true) :
    ¬(flatChunks q = []) := by
  cases q with
  | nil => exact absurd rfl hne
  | cons kv rest =>
      rw [show flatChunks (kv :: rest) = chunkStrs kv ++ flatChunks rest from rfl]
      have := chunkStrs_ne_nil kv (hvals kv (List.mem_cons_self kv rest))
      simp [this]

theorem filterMap_pieces (ps : List Str) (h : ∀ p ∈ ps, ¬(p = [])) :
    ps.filterMap (fun piece =>
        if piece = [] then none else some (splitFirst '=' piece)) =
      ps.map (splitFirst '=') := by
  induction ps with
  | nil => rfl
  | cons p ps ih =>
      rw [List.filterMap_cons, List.map_cons]
      rw [if_neg (h p (List.mem_cons_self p ps))]
      rw [ih (fun x hx => h x (List.mem_cons_of_mem p hx))]

theorem splitFirst_token (k : Str) (s : Str)
    (hk : ∀ c ∈ k, ¬(c = '=')) :
    splitFirst '=' (k ++ [('[' : Char), (']' : Char), ('=' : Char)] ++ s) =
      (k ++ [('[' : Char), (']' : Char)], s) := by
  have hshape : k ++ [('[' : Char), (']' : Char), ('=' : Char)] ++ s =
      (k ++ [('[' : Char), (']' : Char)]) ++ ('=' : Char) :: s := by
    simp
  rw [hshape]
  apply splitFirst_append
  intro hmem
  rw [List.mem_append] at hmem
  cases hmem with
  | inl hin => exact hk '=' hin rfl
  | inr hin => simp at hin

theorem map_splitFirst_flatChunks (q : Query)
    (hvals : ∀ kv ∈ q, isNumListB kv.2 = true)
    (hkeys : ∀ kv ∈ q, ∀ c ∈ kv.1, ¬(c = '&') ∧ ¬(c = '=') ∧ ¬(c = '[')) :
    (flatChunks q).map (splitFirst '=') = flatPairs q := by
  induction q with
  | nil => rfl
  | cons kv rest ih =>
      rw [show flatChunks (kv :: rest) = chunkStrs kv ++ flatChunks rest from rfl]
      rw [show flatPairs (kv :: rest) = pairTokens kv ++ flatPairs rest from rfl]
      rw [List.map_append]
      rw [ih (fun x hx => hvals x (List.mem_cons_of_mem kv hx))
        (fun x hx => hkeys x (List.mem_cons_of_mem kv hx))]
      have hchunk : (chunkStrs kv).map (splitFirst '=') = pairTokens kv := by
        obtain ⟨l, hv, _, _⟩ :=
          isNumListB_spec kv.2 (hvals kv (List.mem_cons_self kv rest))
        unfold chunkStrs pairTokens
        rw [hv]
        dsimp only
        rw [List.map_map]
        apply List.map_congr_left
        intro a ha
        exact splitFirst_token kv.1 (scalarToStr a)
          (fun c hc => (hkeys kv (List.mem_cons_self kv rest) c hc).2.1)
      rw [hchunk]

theorem parse_encode (q : Query)
    (hne : ¬(q = []))
    (hkeys : ∀ kv ∈ q, ∀ c ∈ kv.1, ¬(c = '&') ∧ ¬(c = '=') ∧ ¬(c = '['))
    (hvals : ∀ kv ∈ q, isNumListB kv.2 = true) :
    parseSearchParams (buildUrlQuery q (some []) (some [])) = flatPairs q := by
  rw [buildUrlQuery_norm q hvals hne]
  unfold parseSearchParams
  dsimp only
  rw [if_pos rfl]
  rw [joinSep_map_flatChunks q hvals hne]
  rw [splitOnSep_joinSep '&' (flatChunks q) (flatChunks_ne_nil q hne hvals)
    (flatChunks_no_amp q hvals hkeys)]
  rw [filterMap_pieces (flatChunks q) (flatChunks_tokens_ne_nil q hvals)]
  exact map_splitFirst_flatChunks q hvals hkeys

/-! ## Lemmas: the `forEach` collection loop rebuilds the query -/

theorem collectGo_cons (full : List (Str × Str)) (key val : Str)
    (rest : List (Str × Str)) (q : Query) :
    collectGo full ((key, val) :: rest) q =
      collectGo full rest
        (if hasOwnQ q (replaceFirst [('[' : Char), (']' : Char)] key)
         then q
         else q ++ [(replaceFirst [('[' : Char), (']' : Char)] key,
           QVal.list ((getAllParams full key).map convVal))]) := rfl

theorem hasOwnQ_append_self (xs : Query) (k : Str) (v : QVal) :
    hasOwnQ (xs ++ [(k, v)]) k = true := by
  induction xs with
  | nil => simp [hasOwnQ, qget, assoc?]
  | cons kv rest ih =>
      cases kv with
      | mk k1 v1 =>
          rw [List.cons_append]
          unfold hasOwnQ qget assoc?
          by_cases h : k1 = k
          · rw [if_pos h]
            rfl
          · rw [if_neg h]
            exact ih

theorem hasOwnQ_append_ne (xs : Query) (k : Str) (v : QVal) (k2 : Str)
    (h : ¬(k = k2)) : hasOwnQ (xs ++ [(k, v)]) k2 = hasOwnQ xs k2 := by
  induction xs with
  | nil => simp [hasOwnQ, qget, assoc?, h]
  | cons kv rest ih =>
      cases kv with
      | mk k1 v1 =>
          rw [List.cons_append]
          unfold hasOwnQ qget assoc?
          by_cases h1 : k1 = k2
          · rw [if_pos h1, if_pos h1]
          · rw [if_neg h1, if_neg h1]
            exact ih

theorem collectGo_skip (full : List (Str × Str)) (toks rest2 : List (Str × Str))
    (acc : Query)
    (h : ∀ t ∈ toks,
      hasOwnQ acc (replaceFirst [('[' : Char), (']' : Char)] t.1) = true) :
    collectGo full (toks ++ rest2) acc = collectGo full rest2 acc := by
  induction toks with
  | nil => rfl
  | cons t ts ih =>
      cases t with
      | mk key val =>
          rw [show (((key, val) :: ts : List (Str × Str)) ++ rest2) =
            (key, val) :: (ts ++ rest2) from rfl]
          rw [collectGo_cons]
          rw [if_pos ?hown]
          case hown =>
            have := h (key, val) (List.mem_cons_self _ ts)
            simpa using this
          exact ih (fun x hx => h x (List.mem_cons_of_mem _ hx))

theorem getAllParams_map_self (l : List Scalar) (key : Str) (f : Scalar → Str) :
    getAllParams (l.map (fun a => (key, f a))) key = l.map f := by
  induction l with
  | nil => rfl
  | cons a l2 ih =>
      rw [List.map_cons, List.map_cons]
      unfold getAllParams at ih ⊢
      rw [List.filter_cons]
      rw [if_pos (by simp)]
      rw [List.map_cons]
      rw [ih]

theorem getAllParams_map_ne (l : List Scalar) (key key2 : Str) (f : Scalar → Str)
    (h : ¬(key = key2)) :
    getAllParams (l.map (fun a => (key, f a))) key2 = [] := by
  induction l with
  | nil => rfl
  | cons a l2 ih =>
      rw [List.map_cons]
      unfold getAllParams at ih ⊢
      rw [List.filter_cons]
      rw [if_neg (by simp [h])]
      exact ih

theorem brackets_cancel (k1 k2 : Str)
    (h : k1 ++ [('[' : Char), (']' : Char)] = k2 ++ [('[' : Char), (']' : Char)]) :
    k1 = k2 :=
  List.append_cancel_right h

theorem getAll_flatPairs_nil (qs : Query) (key : Str)
    (hvals : ∀ kv ∈ qs, ∃ l, kv.2 = QVal.list l)
    (h : ∀ kv ∈ qs, ¬(kv.1 ++ [('[' : Char), (']' : Char)] = key)) :
    getAllParams (flatPairs qs) key = [] := by
  induction qs with
  | nil => rfl
  | cons kv rest ih =>
      rw [show flatPairs (kv :: rest) = pairTokens kv ++ flatPairs rest from rfl]
      rw [getAllParams_append]
      obtain ⟨l, hv⟩ := hvals kv (List.mem_cons_self kv rest)
      rw [show pairTokens kv = l.map (fun a =>
        (kv.1 ++ [('[' : Char), (']' : Char)], scalarToStr a)) from by
          unfold pairTokens; rw [hv]]
      rw [getAllParams_map_ne l _ key _ (h kv (List.mem_cons_self kv rest))]
      rw [ih (fun x hx => hvals x (List.mem_cons_of_mem kv hx))
        (fun x hx => h x (List.mem_cons_of_mem kv hx))]
      rfl

theorem getAll_flatPairs_eq (q : Query)
    (hnodup : (q.map (fun kv => kv.1)).Nodup)
    (hvals : ∀ kv ∈ q, ∃ l, kv.2 = QVal.list l) :
    ∀ kv ∈ q, ∀ l, kv.2 = QVal.list l →
      getAllParams (flatPairs q) (kv.1 ++ [('[' : Char), (']' : Char)]) =
        l.map scalarToStr := by
  induction q with
  | nil => intro kv hkv; exact absurd hkv (by simp)
  | cons kv0 rest ih =>
      intro kv hkv l hl
      rw [List.mem_cons] at hkv
      rw [List.map_cons, List.nodup_cons] at hnodup
      rw [show flatPairs (kv0 :: rest) = pairTokens kv0 ++ flatPairs rest from rfl]
      rw [getAllParams_append]
      rcases hkv with heq | hmem
      · subst heq
        rw [show pairTokens kv = l.map (fun a =>
          (kv.1 ++ [('[' : Char), (']' : Char)], scalarToStr a)) from by
            unfold pairTokens; rw [hl]]
        rw [getAllParams_map_self]
        rw [getAll_flatPairs_nil rest _
          (fun x hx => hvals x (List.mem_cons_of_mem kv hx)) ?hnk]
        case hnk =>
          intro x hx hcontra
          have hx1 : x.1 = kv.1 := brackets_cancel x.1 kv.1 hcontra
          exact hnodup.1 (by rw [← hx1]; exact List.mem_map_of_mem (fun z => z.1) hx)
        rw [List.append_nil]
      · obtain ⟨l0, hv0⟩ := hvals kv0 (List.mem_cons_self kv0 rest)
        rw [show pairTokens kv0 = l0.map (fun a =>
          (kv0.1 ++ [('[' : Char), (']' : Char)], scalarToStr a)) from by
            unfold pairTokens; rw [hv0]]
        rw [getAllParams_map_ne l0 _ _ _ ?hne0]
        case hne0 =>
          intro hcontra
          have heq2 := brackets_cancel kv0.1 kv.1 hcontra
          exact hnodup.1 (by rw [heq2]; exact List.mem_map_of_mem (fun z => z.1) hmem)
        rw [List.nil_append]
        exact ih hnodup.2 (fun x hx => hvals x (List.mem_cons_of_mem kv0 hx))
          kv hmem l hl

theorem convVal_map_roundtrip (l : List Scalar)
    (h : ∀ a ∈ l, ∃ n : Int, a = Scalar.num n) :
    (l.map scalarToStr).map convVal = l := by
  induction l with
  | nil => rfl
  | cons a l2 ih =>
      rw [List.map_cons, List.map_cons]
      obtain ⟨n, hn⟩ := h a (List.mem_cons_self a l2)
      rw [hn]
      rw [show convVal (scalarToStr (Scalar.num n)) = Scalar.num n from
        convVal_intRepr n]
      rw [ih (fun x hx => h x (List.mem_cons_of_mem a hx))]

theorem collectGo_groups (full : List (Str × Str)) (qs : Query) :
    ∀ acc : Query,
    (∀ kv ∈ qs, ('[' : Char) ∉ kv.1) →
    (∀ kv ∈ qs, hasOwnQ acc kv.1 = false) →
    ((qs.map (fun kv => kv.1)).Nodup) →
    (∀ kv ∈ qs, ∃ l, kv.2 = QVal.list l ∧ ¬(l = [])) →
    (∀ kv ∈ qs, ∀ l, kv.2 = QVal.list l →
      (getAllParams full (kv.1 ++ [('[' : Char), (']' : Char)])).map convVal = l) →
    collectGo full (flatPairs qs) acc = acc ++ qs := by
  induction qs with
  | nil => intro acc _ _ _ _ _; simp [flatPairs, collectGo]
  | cons kv0 rest ih =>
      intro acc hbr hacc hnodup hvals hgetall
      obtain ⟨k0, v0⟩ := kv0
      obtain ⟨l0, hv0, hl0ne⟩ := hvals (k0, v0) (List.mem_cons_self _ rest)
      have hv0' : v0 = QVal.list l0 := hv0
      rw [List.map_cons, List.nodup_cons] at hnodup
      rw [show flatPairs ((k0, v0) :: rest) =
        pairTokens (k0, v0) ++ flatPairs rest from rfl]
      rw [show pairTokens (k0, v0) = l0.map (fun a =>
        (k0 ++ [('[' : Char), (']' : Char)], scalarToStr a)) from by
          unfold pairTokens; rw [hv0']]
      cases hls : l0 with
      | nil => exact absurd hls hl0ne
      | cons a l2 =>
          rw [List.map_cons, List.cons_append]
          rw [collectGo_cons]
          have hrepl : replaceFirst [('[' : Char), (']' : Char)]
              (k0 ++ [('[' : Char), (']' : Char)]) = k0 :=
            replaceFirst_brackets k0 (hbr (k0, v0) (List.mem_cons_self _ rest))
          rw [hrepl]
          rw [hacc (k0, v0) (List.mem_cons_self _ rest)]
          rw [if_neg (by simp)]
          rw [show (getAllParams full (k0 ++ [('[' : Char), (']' : Char)])).map
            convVal = l0 from hgetall (k0, v0) (List.mem_cons_self _ rest) l0 hv0]
          rw [show QVal.list l0 = v0 from hv0'.symm]
          rw [collectGo_skip full
            (l2.map (fun a => (k0 ++ [('[' : Char), (']' : Char)], scalarToStr a)))
            (flatPairs rest) (acc ++ [(k0, v0)]) ?hskip]
          case hskip =>
            intro t ht
            rw [List.mem_map] at ht
            obtain ⟨b, _, htb⟩ := ht
            rw [← htb]
            show hasOwnQ (acc ++ [(k0, v0)]) (replaceFirst _ (k0 ++ _)) = true
            rw [hrepl]
            exact hasOwnQ_append_self acc k0 v0
          rw [ih (acc ++ [(k0, v0)]) (fun x hx => hbr x (List.mem_cons_of_mem _ hx))
            ?hacc2 hnodup.2 (fun x hx => hvals x (List.mem_cons_of_mem _ hx))
            (fun x hx => hgetall x (List.mem_cons_of_mem _ hx))]
          case hacc2 =>
            intro x hx
            have hne : ¬(k0 = x.1) := by
              intro he
              apply hnodup.1
              rw [he]
              exact List.mem_map_of_mem (fun z => z.1) hx
            rw [hasOwnQ_append_ne acc k0 v0 x.1 hne]
            exact hacc x (List.mem_cons_of_mem _ hx)
          simp

/-- Claim C1, counterexample: the round trip fails on scalar values. The
query `{page: 1}` encodes to `?page=1`, but decoding always stores array
values (`params.getAll(key)`), so the result is `{page: [1]}`, not
structurally equal to `{page: 1}`. -/
theorem scalar_roundtrip_cex :
    ¬(buildJsonQuery [] (buildUrlQuery [(pageKey, QVal.scalar (Scalar.num 1))]
        (some []) (some [])) =
      some [(pageKey, QVal.scalar (Scalar.num 1))]) := by decide

/-- Claim C1, amended: `buildJsonQuery ∘ buildUrlQuery` (with no omitted
keys and an empty rename map) is the identity exactly on nonempty Queries
all of whose values are nonempty ordered lists of numbers, with keys free
of the reserved characters `&`, `=`, `[` and pairwise distinct. Scalar
values come back wrapped in one-element lists, empty-list values are
dropped entirely, numeric strings come back as numbers, and the empty
query encodes to `""` which decodes to `false` — so the contract holds
for list-of-number values only, not for all scalar/list queries. -/
theorem list_query_roundtrip (q : Query)
    (hne : ¬(q = []))
    (hnodup : (q.map (fun kv => kv.1)).Nodup)
    (hkeys : ∀ kv ∈ q, ∀ c ∈ kv.1, ¬(c = '&') ∧ ¬(c = '=') ∧ ¬(c = '['))
    (hvals : ∀ kv ∈ q, isNumListB kv.2 = true) :
    buildJsonQuery [] (buildUrlQuery q (some []) (some [])) = some q := by
  have hparse := parse_encode q hne hkeys hvals
  have hvals' : ∀ kv ∈ q, ∃ l, kv.2 = QVal.list l := by
    intro kv hkv
    obtain ⟨l, hv, _, _⟩ := isNumListB_spec kv.2 (hvals kv hkv)
    exact ⟨l, hv⟩
  unfold buildJsonQuery
  rw [buildUrlQuery_norm q hvals hne] at hparse ⊢
  rw [if_neg (by simp)]
  rw [hparse]
  dsimp only
  rw [show applyHistMap ([] : List (Str × Str))
    (collectGo (flatPairs q) (flatPairs q) []) =
      collectGo (flatPairs q) (flatPairs q) [] from rfl]
  rw [collectGo_groups (flatPairs q) q []
    (fun kv hkv hc => (hkeys kv hkv '[' hc).2.2 rfl)
    (fun _ _ => rfl)
    hnodup
    (fun kv hkv => ?hv2)
    ?hgetall]
  case hv2 =>
    obtain ⟨l, hv, hl, _⟩ := isNumListB_spec kv.2 (hvals kv hkv)
    exact ⟨l, hv, hl⟩
  case hgetall =>
    intro kv hkv l hl
    rw [getAll_flatPairs_eq q hnodup hvals' kv hkv l hl]
    apply convVal_map_roundtrip
    obtain ⟨l2, hv2, _, hnums⟩ := isNumListB_spec kv.2 (hvals kv hkv)
    rw [hl] at hv2
    have hll : l = l2 := by
      injection hv2
    rw [hll]
    exact hnums
  rw [List.nil_append]

/-- Claim C1, witness: a two-taxonomy query with nonempty numeric lists
round-trips exactly. -/
theorem list_query_roundtrip_witness :
    buildJsonQuery [] (buildUrlQuery
      [(("categories").toList, QVal.list [Scalar.num 3, Scalar.num 5]),
       (("tags").toList, QVal.list [Scalar.num 7])] (some []) (some [])) =
      some [(("categories").toList, QVal.list [Scalar.num 3, Scalar.num 5]),
       (("tags").toList, QVal.list [Scalar.num 7])] :=
  list_query_roundtrip
    [(("categories").toList, QVal.list [Scalar.num 3, Scalar.num 5]),
     (("tags").toList, QVal.list [Scalar.num 7])]
    (by decide) (by decide) (by decide) (by decide)

end ArchiveVue
